import Mathlib

/-!
Verification of the advanced-vector container (src/advanced-vector/vector.h).

The C++ source is shallowly embedded as follows.

A raw buffer (`RawMemory`) is a list of slots; a slot is `none` when it holds
uninitialized memory and `some a` when a live element with value `a` was
constructed there.  A `Vector` is a buffer plus the count `size_` of live
elements, exactly as in the source.

Element-type properties that the C++ template dispatches on, and the
observable behavior of the element operations of T, are gathered in an
`ElemType` record: the two type traits used by the source
(`std::is_nothrow_move_constructible_v`, `std::is_copy_constructible_v`),
whether destruction of T is trivial (scalar types such as int, whose
pseudo-destructor does not end the lifetime and for which raw stores are
plain writes), which values throw when copy- or move-constructed from, the
residual value a source object holds after being moved from, and the value
produced by value-construction `T()`.

Points where the C++ code has undefined behavior (destroying or assigning
into a slot that holds no live object for a non-trivially-destructible type,
out-of-range access, an invalid iterator range handed to a std algorithm,
index underflow of `size_ - 1` at `size_ == 0`) are modelled as `.ub` faults.
A C++ exception propagating out of an operation is modelled as an `.ex`
fault carrying the container state and the state of the in-progress new
block at the moment the exception leaves the function, which is what the
exception-safety claims are about.
-/

namespace AdvVec

/-- Type-level facts and element-operation semantics of the template argument T. -/
structure ElemType (α : Type) where
  nothrowMove : Bool
  copyable : Bool
  trivialDtor : Bool
  failCopy : α → Bool
  failMove : α → Bool
  movedFrom : α → α
  defaultVal : α

/-- A raw block of element-sized slots; `none` is uninitialized memory. -/
abbrev Block (α : Type) := List (Option α)

/-- A fault inside a primitive step: undefined behavior, or a C++ exception in flight. -/
inductive PFault where
  | ub (msg : String)
  | thrown
  deriving DecidableEq

/-- Mirrors `RawMemory<T>`: owns the raw block.  A null buffer is the empty list. -/
structure RawMemory (α : Type) where
  buffer : Block α
  deriving DecidableEq

/-- Mirrors `RawMemory::Capacity()`. -/
def RawMemory.Capacity (m : RawMemory α) : Nat := m.buffer.length

/-- Mirrors `Vector<T>`: a `RawMemory` plus the count of live elements. -/
structure Vector (α : Type) where
  data_ : RawMemory α
  size_ : Nat
  deriving DecidableEq

/-- Mirrors `Vector::Size()`. -/
def Vector.Size (v : Vector α) : Nat := v.size_

/-- Mirrors `Vector::Capacity()`. -/
def Vector.Capacity (v : Vector α) : Nat := v.data_.Capacity

/-- A default-constructed `Vector()`: null buffer, size 0. -/
def vecEmpty : Vector α := ⟨⟨[]⟩, 0⟩

/-- The live prefix of the vector, i.e. slots `[0, size_)`. -/
def Vector.elems (v : Vector α) : Block α := v.data_.buffer.take v.size_

/-- A fault of a whole member function of `Vector`. -/
inductive Fault (α : Type) where
  | ub (msg : String)
  | ex (st : Vector α) (blk : Block α)
  deriving DecidableEq

/-- The class invariant of the container (spec section 3): live elements exactly
in `[0, size_)`, uninitialized slots exactly in `[size_, capacity)`. -/
def WF (v : Vector α) : Prop :=
  v.size_ ≤ v.Capacity ∧
  (∀ i, i < v.size_ → ((v.data_.buffer[i]?).bind id).isSome = true) ∧
  (∀ i, v.size_ ≤ i → i < v.Capacity → v.data_.buffer[i]? = some none)

instance [DecidableEq α] (v : Vector α) : Decidable (WF v) := by
  unfold WF; infer_instance

/-- A block all of whose slots are uninitialized (a fully unwound new block). -/
def AllNone (b : Block α) : Prop := ∀ x ∈ b, x = none

instance [DecidableEq α] (b : Block α) : Decidable (AllNone b) := by
  unfold AllNone; infer_instance

/-! ## Element-operation primitives

These model single placement constructions, destructor calls and assignments
at a slot, with the lifetime discipline of C++: for a non-trivially
destructible T, destroying or assigning into a slot without a live object is
undefined behavior; for a trivially destructible T (int), destruction does
not end the lifetime and stores into raw storage are ordinary writes. -/

/-- Copy-construct a fresh T from value `a` (can throw). -/
def copyCtorVal (et : ElemType α) (a : α) : Except PFault α :=
  if et.failCopy a then .error .thrown else .ok a

/-- Move-construct a fresh T from a value outside the buffer (can throw).
The residue of the external source object is not tracked. -/
def moveCtorVal (et : ElemType α) (a : α) : Except PFault α :=
  if et.failMove a then .error .thrown else .ok a

/-- Placement-new of an already computed value into slot `i`
(`new (buf + i) T(...)` after the ctor argument work is done). -/
def constructAt (et : ElemType α) (b : Block α) (i : Nat) (a : α) : Except String (Block α) :=
  match b[i]? with
  | some none => .ok (b.set i (some a))
  | some (some _) =>
      if et.trivialDtor then .ok (b.set i (some a))
      else .error "constructAt: overwriting a live object"
  | none => .error "constructAt: out of range"

/-- Mirrors `Vector::Destroy(buf + i)`: run the destructor at slot `i`. -/
def destroyAt (et : ElemType α) (b : Block α) (i : Nat) : Except String (Block α) :=
  match b[i]? with
  | some (some _) => .ok (if et.trivialDtor then b else b.set i none)
  | some none =>
      if et.trivialDtor then .ok b
      else .error "destroyAt: destroying a slot with no live object"
  | none => .error "destroyAt: out of range"

/-- Mirrors `Vector::DestroyN(buf + i, n)`. -/
def destroyN (et : ElemType α) (b : Block α) (i : Nat) : Nat → Except String (Block α)
  | 0 => .ok b
  | n + 1 =>
    match destroyAt et b i with
    | .ok b' => destroyN et b' (i + 1) n
    | .error m => .error m

/-- Copy-assignment `b[i] = a` where `a` came from a const source (can throw). -/
def copyAssignAt (et : ElemType α) (b : Block α) (i : Nat) (a : α) : Except PFault (Block α) :=
  if et.failCopy a then .error .thrown
  else
    match b[i]? with
    | some (some _) => .ok (b.set i (some a))
    | some none =>
        if et.trivialDtor then .ok (b.set i (some a))
        else .error (.ub "copyAssignAt: assigning into a dead slot")
    | none => .error (.ub "copyAssignAt: out of range")

/-- Move-assignment `b[dst] = std::move(temp)` from a value outside the buffer. -/
def moveAssignVal (et : ElemType α) (b : Block α) (dst : Nat) (a : α) : Except PFault (Block α) :=
  if et.failMove a then .error .thrown
  else
    match b[dst]? with
    | some (some _) => .ok (b.set dst (some a))
    | some none =>
        if et.trivialDtor then .ok (b.set dst (some a))
        else .error (.ub "moveAssignVal: assigning into a dead slot")
    | none => .error (.ub "moveAssignVal: out of range")

/-- Move-assignment `b[dst] = std::move(b[src])` between slots; the source
slot is left holding its moved-from residue. -/
def moveAssignFromSlot (et : ElemType α) (b : Block α) (src dst : Nat) :
    Except PFault (Block α) :=
  match b[src]? with
  | some (some a) =>
      if et.failMove a then .error .thrown
      else
        match b[dst]? with
        | some (some _) => .ok ((b.set dst (some a)).set src (some (et.movedFrom a)))
        | some none =>
            if et.trivialDtor then .ok ((b.set dst (some a)).set src (some (et.movedFrom a)))
            else .error (.ub "moveAssignFromSlot: assigning into a dead slot")
        | none => .error (.ub "moveAssignFromSlot: destination out of range")
  | _ => .error (.ub "moveAssignFromSlot: moving from a slot with no live object")

/-- Move-construction `new (b + dst) T(std::move(b[src]))` between slots. -/
def moveConstructFromSlot (et : ElemType α) (b : Block α) (src dst : Nat) :
    Except PFault (Block α) :=
  match b[src]? with
  | some (some a) =>
      if et.failMove a then .error .thrown
      else
        match constructAt et b dst a with
        | .ok b' => .ok (b'.set src (some (et.movedFrom a)))
        | .error m => .error (.ub m)
  | _ => .error (.ub "moveConstructFromSlot: moving from a slot with no live object")

/-- Mirrors `std::uninitialized_value_construct_n(b + i, n)`.  Following the
design note of the spec, value-construction `T()` is modelled non-throwing. -/
def valueConstructN (et : ElemType α) (b : Block α) (i : Nat) : Nat → Except String (Block α)
  | 0 => .ok b
  | n + 1 =>
    match constructAt et b i et.defaultVal with
    | .ok b' => valueConstructN et b' (i + 1) n
    | .error m => .error m

/-- Mirrors `std::uninitialized_copy_n(src + sp, n, dst + dp)`.  On a throw the
standard function destroys the objects it already constructed before letting
the exception escape; the error therefore carries the unwound destination. -/
def uninitializedCopyN (et : ElemType α) (src : Block α) (sp n : Nat) (dst : Block α)
    (dp : Nat) : Except (PFault × Block α) (Block α) :=
  match n with
  | 0 => .ok dst
  | n' + 1 =>
    match src[sp]? with
    | some (some a) =>
        if et.failCopy a then .error (.thrown, dst)
        else
          match dst[dp]? with
          | some none =>
            match uninitializedCopyN et src (sp + 1) n' (dst.set dp (some a)) (dp + 1) with
            | .ok d => .ok d
            | .error (.thrown, d) => .error (.thrown, d.set dp none)
            | .error e => .error e
          | _ => .error (.ub "uninitialized_copy_n: destination slot not free", dst)
    | _ => .error (.ub "uninitialized_copy_n: source slot not live", dst)

/-- Mirrors `std::uninitialized_move_n(src + sp, n, dst + dp)`.  Successfully
moved sources are left with their moved-from residue; on a throw the
constructed destination objects are destroyed but the residues remain, so the
error carries both the damaged source and the unwound destination. -/
def uninitializedMoveN (et : ElemType α) (src : Block α) (sp n : Nat) (dst : Block α)
    (dp : Nat) : Except (PFault × Block α × Block α) (Block α × Block α) :=
  match n with
  | 0 => .ok (src, dst)
  | n' + 1 =>
    match src[sp]? with
    | some (some a) =>
        if et.failMove a then .error (.thrown, src, dst)
        else
          match dst[dp]? with
          | some none =>
            match uninitializedMoveN et (src.set sp (some (et.movedFrom a))) (sp + 1) n'
                (dst.set dp (some a)) (dp + 1) with
            | .ok (s, d) => .ok (s, d)
            | .error (.thrown, s, d) => .error (.thrown, s, d.set dp none)
            | .error e => .error e
          | _ => .error (.ub "uninitialized_move_n: destination slot not free", src, dst)
    | _ => .error (.ub "uninitialized_move_n: source slot not live", src, dst)

/-- The relocation step shared by every growth path, with the trait dispatch
of the source:
`if constexpr (std::is_nothrow_move_constructible_v<T> || !std::is_copy_constructible_v<T>)
std::uninitialized_move_n else std::uninitialized_copy_n`. -/
def relocateN (et : ElemType α) (src : Block α) (sp n : Nat) (dst : Block α) (dp : Nat) :
    Except (PFault × Block α × Block α) (Block α × Block α) :=
  if et.nothrowMove || !et.copyable then
    uninitializedMoveN et src sp n dst dp
  else
    match uninitializedCopyN et src sp n dst dp with
    | .ok d => .ok (src, d)
    | .error (pf, d) => .error (pf, src, d)

/-- Inner loop of `std::move_backward`, moving `count` slots starting at
`first` to the range shifted right by `shift`, highest index first. -/
def mbGo (et : ElemType α) (b : Block α) (first shift : Nat) :
    Nat → Except (PFault × Block α) (Block α)
  | 0 => .ok b
  | c + 1 =>
    match moveAssignFromSlot et b (first + c) (first + c + shift) with
    | .ok b' => mbGo et b' first shift c
    | .error pf => .error (pf, b)

/-- Mirrors `std::move_backward(b + first, b + last, b + d_last)`.  The
standard requires `[first, last)` to be a valid range and `d_last` to not
precede `last`; violating that is undefined behavior. -/
def moveBackwardN (et : ElemType α) (b : Block α) (first last d_last : Nat) :
    Except (PFault × Block α) (Block α) :=
  if last < first then .error (.ub "move_backward: invalid range", b)
  else if d_last < last then .error (.ub "move_backward: destination overlaps badly", b)
  else mbGo et b first (d_last - last) (last - first)

/-- Inner loop of `std::move`, moving `count` slots from `first` to `d_first`,
lowest index first. -/
def mfGo (et : ElemType α) (b : Block α) (first d_first : Nat) :
    Nat → Except (PFault × Block α) (Block α)
  | 0 => .ok b
  | c + 1 =>
    match moveAssignFromSlot et b first d_first with
    | .ok b' => mfGo et b' (first + 1) (d_first + 1) c
    | .error pf => .error (pf, b)

/-- Mirrors `std::move(b + first, b + last, b + d_first)`. -/
def moveForwardN (et : ElemType α) (b : Block α) (first last d_first : Nat) :
    Except (PFault × Block α) (Block α) :=
  if last < first then .error (.ub "std::move: invalid range", b)
  else mfGo et b first d_first (last - first)

/-- Loop `for (; i < stop; ++i) data_[i] = other.data_[i];` of the copy
assignment operator: `count` copy-assignments starting at index `i`. -/
def assignFromN (et : ElemType α) (b src : Block α) (i : Nat) :
    Nat → Except (PFault × Block α) (Block α)
  | 0 => .ok b
  | n + 1 =>
    match src[i]? with
    | some (some a) =>
      match copyAssignAt et b i a with
      | .ok b' => assignFromN et b' src (i + 1) n
      | .error pf => .error (pf, b)
    | _ => .error (.ub "copy assignment: reading a source slot with no live object", b)

/-- Loop `for (; i < other.size_; ++i) new (data_ + i) T(other.data_[i]);` of
the copy assignment operator.  Unlike `std::uninitialized_copy_n` this plain
loop performs no unwinding when a copy constructor throws. -/
def constructFromN (et : ElemType α) (b src : Block α) (i : Nat) :
    Nat → Except (PFault × Block α) (Block α)
  | 0 => .ok b
  | n + 1 =>
    match src[i]? with
    | some (some a) =>
      match copyCtorVal et a with
      | .error pf => .error (pf, b)
      | .ok a' =>
        match constructAt et b i a' with
        | .ok b' => constructFromN et b' src (i + 1) n
        | .error m => .error (.ub m, b)
    | _ => .error (.ub "copy assignment: reading a source slot with no live object", b)

/-! ## The member functions of `Vector` -/

/-- Mirrors `Vector::Reallocate(RawMemory<T>& new_data)`: relocate all
elements into the prepared new block, commit by swap, destroy the old block
contents.  Note the source destroys `new_data.Capacity()` (the old capacity)
many slots after the swap.  Returns the new buffer. -/
def Reallocate1 (et : ElemType α) (v : Vector α) (new_data : Block α) :
    Except (Fault α) (Block α) :=
  match relocateN et v.data_.buffer 0 v.size_ new_data 0 with
  | .error (.thrown, s', d') =>
      -- catch: DestroyN(new_data.GetAddress() + size_, 1); throw;
      match destroyN et d' v.size_ 1 with
      | .ok d'' => .error (.ex ⟨⟨s'⟩, v.size_⟩ d'')
      | .error m => .error (.ub m)
  | .error (.ub m, _, _) => .error (.ub m)
  | .ok (s', d') =>
      -- data_.Swap(new_data); DestroyN(new_data.GetAddress(), new_data.Capacity());
      match destroyN et s' 0 s'.length with
      | .ok _ => .ok d'
      | .error m => .error (.ub m)

/-- Mirrors `Vector::Reallocate(RawMemory<T>& new_data, size_t pos_idx)`:
relocate the prefix `[0, pos_idx)` and the suffix `[pos_idx, size_)` around
the already constructed element at `pos_idx` of the new block, each phase
with its own unwinding, then commit by swap and destroy the old block. -/
def Reallocate2 (et : ElemType α) (v : Vector α) (new_data : Block α) (pos_idx : Nat) :
    Except (Fault α) (Block α) :=
  match relocateN et v.data_.buffer 0 pos_idx new_data 0 with
  | .error (.thrown, s', d') =>
      -- catch: DestroyN(new_data.GetAddress() + pos_idx, 1); throw;
      match destroyN et d' pos_idx 1 with
      | .ok d'' => .error (.ex ⟨⟨s'⟩, v.size_⟩ d'')
      | .error m => .error (.ub m)
  | .error (.ub m, _, _) => .error (.ub m)
  | .ok (s1, d1) =>
      match relocateN et s1 pos_idx (v.size_ - pos_idx) d1 (pos_idx + 1) with
      | .error (.thrown, s2, d2) =>
          -- catch: DestroyN(new_data.GetAddress(), pos_idx + 1); throw;
          match destroyN et d2 0 (pos_idx + 1) with
          | .ok d'' => .error (.ex ⟨⟨s2⟩, v.size_⟩ d'')
          | .error m => .error (.ub m)
      | .error (.ub m, _, _) => .error (.ub m)
      | .ok (s2, d2) =>
          match destroyN et s2 0 s2.length with
          | .ok _ => .ok d2
          | .error m => .error (.ub m)

/-- Mirrors `Vector::Reserve(size_t new_capacity)`.  No try/catch here: on a
throw the unwinding is done inside the std relocation function and the new
`RawMemory` is freed by its destructor. -/
def Reserve (et : ElemType α) (v : Vector α) (new_capacity : Nat) :
    Except (Fault α) (Vector α) :=
  if new_capacity ≤ v.data_.Capacity then .ok v
  else
    let new_data : Block α := List.replicate new_capacity none
    match relocateN et v.data_.buffer 0 v.size_ new_data 0 with
    | .error (.thrown, s', d') => .error (.ex ⟨⟨s'⟩, v.size_⟩ d')
    | .error (.ub m, _, _) => .error (.ub m)
    | .ok (s', d') =>
        -- data_.Swap(new_data); DestroyN(new_data.GetAddress(), new_data.Capacity());
        match destroyN et s' 0 s'.length with
        | .ok _ => .ok ⟨⟨d'⟩, v.size_⟩
        | .error m => .error (.ub m)

/-- Mirrors `Vector::Resize(size_t new_size)`. -/
def Resize (et : ElemType α) (v : Vector α) (new_size : Nat) :
    Except (Fault α) (Vector α) :=
  if v.size_ = new_size then .ok v
  else if v.size_ < new_size then
    match Reserve et v new_size with
    | .error f => .error f
    | .ok v1 =>
      match valueConstructN et v1.data_.buffer v.size_ (new_size - v.size_) with
      | .ok b => .ok ⟨⟨b⟩, new_size⟩
      | .error m => .error (.ub m)
  else
    match destroyN et v.data_.buffer new_size (v.size_ - new_size) with
    | .ok b => .ok ⟨⟨b⟩, new_size⟩
    | .error m => .error (.ub m)

/-- Mirrors `void Vector::PushBack(const T& value)`.  The C++ return type is
void, so no reference to an element is returned; the second component of the
result, the designated index of the returned reference, is therefore `none`. -/
def PushBackCopy (et : ElemType α) (v : Vector α) (value : α) :
    Except (Fault α) (Vector α × Option Nat) :=
  if v.size_ = v.data_.Capacity then
    let new_capacity := if v.size_ = 0 then 1 else v.size_ * 2
    let new_data : Block α := List.replicate new_capacity none
    match copyCtorVal et value with
    | .error _ => .error (.ex v new_data)
    | .ok a =>
      match constructAt et new_data v.size_ a with
      | .error m => .error (.ub m)
      | .ok nd =>
        match Reallocate1 et v nd with
        | .error f => .error f
        | .ok b => .ok (⟨⟨b⟩, v.size_ + 1⟩, none)
  else
    match copyCtorVal et value with
    | .error _ => .error (.ex v [])
    | .ok a =>
      match constructAt et v.data_.buffer v.size_ a with
      | .error m => .error (.ub m)
      | .ok b => .ok (⟨⟨b⟩, v.size_ + 1⟩, none)

/-- Mirrors `void Vector::PushBack(T&& value)`; also returns void. -/
def PushBackMove (et : ElemType α) (v : Vector α) (value : α) :
    Except (Fault α) (Vector α × Option Nat) :=
  if v.size_ = v.data_.Capacity then
    let new_capacity := if v.size_ = 0 then 1 else v.size_ * 2
    let new_data : Block α := List.replicate new_capacity none
    match moveCtorVal et value with
    | .error _ => .error (.ex v new_data)
    | .ok a =>
      match constructAt et new_data v.size_ a with
      | .error m => .error (.ub m)
      | .ok nd =>
        match Reallocate1 et v nd with
        | .error f => .error f
        | .ok b => .ok (⟨⟨b⟩, v.size_ + 1⟩, none)
  else
    match moveCtorVal et value with
    | .error _ => .error (.ex v [])
    | .ok a =>
      match constructAt et v.data_.buffer v.size_ a with
      | .error m => .error (.ub m)
      | .ok b => .ok (⟨⟨b⟩, v.size_ + 1⟩, none)

/-- Mirrors `void Vector::PopBack()`.  `data_.GetAddress() + size_ - 1`
underflows when the container is empty. -/
def PopBack (et : ElemType α) (v : Vector α) : Except (Fault α) (Vector α) :=
  if v.size_ = 0 then .error (.ub "PopBack on an empty container: pointer underflow")
  else
    match destroyAt et v.data_.buffer (v.size_ - 1) with
    | .ok b => .ok ⟨⟨b⟩, v.size_ - 1⟩
    | .error m => .error (.ub m)

/-- Mirrors `T& Vector::EmplaceBack(Args&&... args)`.  The argument
`mkArgs` is the outcome of the element construction `T(args...)`: the
constructed value, or a throw.  Returns the designated index of the returned
reference `data_[size_ - 1]`, which after `++size_` is the old `size_`. -/
def EmplaceBack (et : ElemType α) (v : Vector α) (mkArgs : Except Unit α) :
    Except (Fault α) (Vector α × Option Nat) :=
  if v.size_ = v.data_.Capacity then
    let new_capacity := if v.size_ = 0 then 1 else v.size_ * 2
    let new_data : Block α := List.replicate new_capacity none
    match mkArgs with
    | .error _ => .error (.ex v new_data)
    | .ok a =>
      match constructAt et new_data v.size_ a with
      | .error m => .error (.ub m)
      | .ok nd =>
        match Reallocate1 et v nd with
        | .error f => .error f
        | .ok b => .ok (⟨⟨b⟩, v.size_ + 1⟩, some v.size_)
  else
    match mkArgs with
    | .error _ => .error (.ex v [])
    | .ok a =>
      match constructAt et v.data_.buffer v.size_ a with
      | .error m => .error (.ub m)
      | .ok b => .ok (⟨⟨b⟩, v.size_ + 1⟩, some v.size_)

/-- The shared no-spare-capacity path of both `Insert` overloads and of
`Emplace` at `pos_idx < size_`, entered with the constructed temporary:
`new (data_ + size_) T(std::move(data_[size_ - 1]));
std::move_backward(begin() + pos_idx, end() - 1, end());
data_[pos_idx] = std::move(temp_value);`.
At `size_ == 0` the index `size_ - 1` underflows (caught by the
`assert(index < capacity_)` of `RawMemory::operator[]`). -/
def insertShift (et : ElemType α) (v : Vector α) (pos_idx : Nat) (temp : α) :
    Except (Fault α) (Vector α × Nat) :=
  if v.size_ = 0 then
    .error (.ub "Insert: index size_ - 1 underflows on an empty container")
  else
    match moveConstructFromSlot et v.data_.buffer (v.size_ - 1) v.size_ with
    | .error .thrown => .error (.ex v [])
    | .error (.ub m) => .error (.ub m)
    | .ok b1 =>
      match moveBackwardN et b1 pos_idx (v.size_ - 1) v.size_ with
      | .error (.thrown, b) => .error (.ex ⟨⟨b⟩, v.size_⟩ [])
      | .error (.ub m, _) => .error (.ub m)
      | .ok b2 =>
        match moveAssignVal et b2 pos_idx temp with
        | .error .thrown => .error (.ex ⟨⟨b2⟩, v.size_⟩ [])
        | .error (.ub m) => .error (.ub m)
        | .ok b3 => .ok (⟨⟨b3⟩, v.size_ + 1⟩, pos_idx)

/-- The shared at-capacity path of `Insert` and `Emplace`, entered with the
outcome of constructing the new element: construct it at `pos_idx` of the new
block, then `Reallocate(new_data, pos_idx)`. -/
def insertGrow (et : ElemType α) (v : Vector α) (pos_idx : Nat) (mk : Except Unit α) :
    Except (Fault α) (Vector α × Nat) :=
  let new_capacity := if v.size_ = 0 then 1 else v.size_ * 2
  let new_data : Block α := List.replicate new_capacity none
  match mk with
  | .error _ => .error (.ex v new_data)
  | .ok a =>
    match constructAt et new_data pos_idx a with
    | .error m => .error (.ub m)
    | .ok nd =>
      match Reallocate2 et v nd pos_idx with
      | .error f => .error f
      | .ok b => .ok (⟨⟨b⟩, v.size_ + 1⟩, pos_idx)

/-- Mirrors `iterator Vector::Insert(const_iterator pos, const T& value)`.
Iterators are modelled by their index: `pos_idx = pos - begin()`. -/
def InsertCopy (et : ElemType α) (v : Vector α) (pos_idx : Nat) (value : α) :
    Except (Fault α) (Vector α × Nat) :=
  if v.size_ = v.data_.Capacity then
    insertGrow et v pos_idx ((copyCtorVal et value).mapError fun _ => ())
  else
    match copyCtorVal et value with    -- T temp_value(value);
    | .error _ => .error (.ex v [])
    | .ok temp => insertShift et v pos_idx temp

/-- Mirrors `iterator Vector::Insert(const_iterator pos, T&& value)`. -/
def InsertMove (et : ElemType α) (v : Vector α) (pos_idx : Nat) (value : α) :
    Except (Fault α) (Vector α × Nat) :=
  if v.size_ = v.data_.Capacity then
    insertGrow et v pos_idx ((moveCtorVal et value).mapError fun _ => ())
  else
    match moveCtorVal et value with    -- T temp_value(std::move(value));
    | .error _ => .error (.ex v [])
    | .ok temp => insertShift et v pos_idx temp

/-- Mirrors `iterator Vector::Emplace(const_iterator pos, Args&&... args)`.
Unlike `Insert`, the spare-capacity path special-cases `pos_idx == size_`. -/
def Emplace (et : ElemType α) (v : Vector α) (pos_idx : Nat) (mkArgs : Except Unit α) :
    Except (Fault α) (Vector α × Nat) :=
  if v.size_ = v.data_.Capacity then
    insertGrow et v pos_idx mkArgs
  else
    if pos_idx = v.size_ then
      match mkArgs with
      | .error _ => .error (.ex v [])
      | .ok a =>
        match constructAt et v.data_.buffer pos_idx a with
        | .error m => .error (.ub m)
        | .ok b => .ok (⟨⟨b⟩, v.size_ + 1⟩, pos_idx)
    else
      match mkArgs with                 -- T temp_value(std::forward<Args>(args)...);
      | .error _ => .error (.ex v [])
      | .ok temp => insertShift et v pos_idx temp

/-- Mirrors `iterator Vector::Erase(const_iterator pos)`:
`Destroy(data_.GetAddress() + pos_idx);
std::move(begin() + pos_idx + 1, end(), begin() + pos_idx);
--size_;  return data_.GetAddress() + pos_idx;`. -/
def Erase (et : ElemType α) (v : Vector α) (pos_idx : Nat) :
    Except (Fault α) (Vector α × Nat) :=
  match destroyAt et v.data_.buffer pos_idx with
  | .error m => .error (.ub m)
  | .ok b =>
    match moveForwardN et b (pos_idx + 1) v.size_ pos_idx with
    | .error (.thrown, b') => .error (.ex ⟨⟨b'⟩, v.size_⟩ [])
    | .error (.ub m, _) => .error (.ub m)
    | .ok b2 => .ok (⟨⟨b2⟩, v.size_ - 1⟩, pos_idx)

/-- Mirrors `Vector(const Vector& other)`: allocate exactly `other.size_`
slots and `std::uninitialized_copy_n` every element. -/
def CopyCtor (et : ElemType α) (other : Vector α) : Except (Fault α) (Vector α) :=
  let new_data : Block α := List.replicate other.size_ none
  match uninitializedCopyN et other.data_.buffer 0 other.size_ new_data 0 with
  | .ok d => .ok ⟨⟨d⟩, other.size_⟩
  | .error (.thrown, d) => .error (.ex other d)
  | .error (.ub m, _) => .error (.ub m)

/-- Mirrors `Vector(Vector&& other)`: swap the default-initialized members
with the source; the first component is the new vector, the second the
emptied source. -/
def MoveCtor (other : Vector α) : Vector α × Vector α :=
  ((⟨other.data_, other.size_⟩ : Vector α), (⟨⟨[]⟩, 0⟩ : Vector α))

/-- Mirrors `Vector& operator=(const Vector& other)`.  The `this == &other`
self-test compares object identity, which distinct model values never share.
If the source does not fit, copy-and-swap; otherwise assign over the common
prefix, then construct or destroy the tail. -/
def CopyAssign (et : ElemType α) (v other : Vector α) : Except (Fault α) (Vector α) :=
  if other.size_ > v.data_.Capacity then
    match CopyCtor et other with        -- Vector<T> tmp(other); Swap(tmp);
    | .error f => .error f
    | .ok tmp => .ok tmp
  else
    let mn := min v.size_ other.size_
    match assignFromN et v.data_.buffer other.data_.buffer 0 mn with
    | .error (.thrown, b) => .error (.ex ⟨⟨b⟩, v.size_⟩ [])
    | .error (.ub m, _) => .error (.ub m)
    | .ok b1 =>
      match constructFromN et b1 other.data_.buffer mn (other.size_ - mn) with
      | .error (.thrown, b) => .error (.ex ⟨⟨b⟩, v.size_⟩ [])
      | .error (.ub m, _) => .error (.ub m)
      | .ok b2 =>
        if other.size_ < v.size_ then
          match destroyN et b2 other.size_ (v.size_ - other.size_) with
          | .ok b3 => .ok ⟨⟨b3⟩, other.size_⟩
          | .error m => .error (.ub m)
        else .ok ⟨⟨b2⟩, other.size_⟩

/-- Mirrors `Vector& operator=(Vector&&)`: swap storage and size with the
source; first component is the assigned-to vector, second the source after. -/
def MoveAssign (v other : Vector α) : Vector α × Vector α :=
  ((⟨other.data_, other.size_⟩ : Vector α), (⟨v.data_, v.size_⟩ : Vector α))

/-- Mirrors `void Vector::Swap(Vector& other)`. -/
def VSwap (v other : Vector α) : Vector α × Vector α :=
  ((⟨other.data_, other.size_⟩ : Vector α), (⟨v.data_, v.size_⟩ : Vector α))

/-- Mirrors `explicit Vector(size_t size)`: allocate `size` slots and
value-construct each one. -/
def VectorSized (et : ElemType α) (n : Nat) : Except String (Vector α) :=
  match valueConstructN et (List.replicate n none) 0 n with
  | .ok b => .ok ⟨⟨b⟩, n⟩
  | .error m => .error m

/-! ## Concrete element types used by the claims -/

/-- A well-behaved, non-trivially-destructible element type: nothrow-movable
and copyable, no operation ever throws (for example std::string under the
small-string regime, or any ordinary value type). -/
def genOps : ElemType Int :=
  { nothrowMove := true, copyable := true, trivialDtor := false
    failCopy := fun _ => false, failMove := fun _ => false
    movedFrom := id, defaultVal := 0 }

/-- The element type int: trivially destructible, moves are copies. -/
def intOps : ElemType Int :=
  { nothrowMove := true, copyable := true, trivialDtor := true
    failCopy := fun _ => false, failMove := fun _ => false
    movedFrom := id, defaultVal := 0 }

/-- A non-copyable element type whose move constructor throws on the value 2
and whose moved-from objects hold 0.  The source then relocates by move. -/
def badMoveOps : ElemType Int :=
  { nothrowMove := false, copyable := false, trivialDtor := false
    failCopy := fun _ => false, failMove := fun a => decide (a = 2)
    movedFrom := fun _ => 0, defaultVal := 0 }

/-- A copyable element type with a throwing move constructor: copying the
value 2 throws.  The source then relocates by copy. -/
def throwCopyOps : ElemType Int :=
  { nothrowMove := false, copyable := true, trivialDtor := false
    failCopy := fun a => decide (a = 2), failMove := fun _ => false
    movedFrom := id, defaultVal := 0 }



/-- A single append of the kind claim C4 quantifies over. -/
inductive AppendOp (α : Type) where
  | push (a : α)
  | pushMove (a : α)
  | emplace (a : α)

/-- Run one append on a vector. -/
def stepAppend (et : ElemType α) (v : Vector α) : AppendOp α → Except (Fault α) (Vector α)
  | .push a => (PushBackCopy et v a).map (fun p => p.1)
  | .pushMove a => (PushBackMove et v a).map (fun p => p.1)
  | .emplace a => (EmplaceBack et v (.ok a)).map (fun p => p.1)

/-- Run a sequence of appends starting from a given vector. -/
def runAppendsFrom (et : ElemType α) (v : Vector α) :
    List (AppendOp α) → Except (Fault α) (Vector α)
  | [] => .ok v
  | op :: t =>
    match stepAppend et v op with
    | .ok w => runAppendsFrom et w t
    | .error f => .error f

/-- Run a sequence of appends starting from a default-constructed vector. -/
def runAppends (et : ElemType α) (l : List (AppendOp α)) : Except (Fault α) (Vector α) :=
  runAppendsFrom et (vecEmpty) l

/-- Induction invariant for the growth-doubling claim: after `n` appends the
container is well-formed with size `n`; its capacity is 0 for `n = 0` and
otherwise a power of two in `[n, 2n)` - which makes it the least power of two
that is at least `n`. -/
def CapInv (n : Nat) (v : Vector α) : Prop :=
  v.size_ = n ∧ WF v ∧ (n = 0 → v.Capacity = 0) ∧
  (1 ≤ n → (∃ k, v.Capacity = 2 ^ k) ∧ n ≤ v.Capacity ∧ v.Capacity < 2 * n)

/-! ## Helper lemmas -/

/-- Setting a slot to the value it already holds leaves the list unchanged. -/
theorem set_eq_of_getElem? {b : Block α} {i : Nat} {x : Option α} (h : b[i]? = some x) :
    b.set i x = b := by
  have hi : i < b.length := by
    by_contra hc
    rw [List.getElem?_eq_none (Nat.le_of_not_lt hc)] at h
    exact Option.noConfusion h
  apply List.ext_getElem?
  intro n
  rcases eq_or_ne i n with rfl | hne
  · rw [List.getElem?_set_self hi, h]
  · rw [List.getElem?_set_ne hne]

/-- A block is all-uninitialized as soon as every in-range slot reads `some none`. -/
theorem allNone_of_getElem? {b : Block α} (h : ∀ k, k < b.length → b[k]? = some none) :
    AllNone b := by
  intro x hx
  rcases List.getElem_of_mem hx with ⟨k, hk, hget⟩
  have := h k hk
  rw [List.getElem?_eq_getElem hk] at this
  rw [← hget]
  exact Option.some_injective _ this

/-- The freshly allocated block of a growth path is all-uninitialized. -/
theorem allNone_replicate (n : Nat) : AllNone (List.replicate n (none : Option α)) := by
  intro x hx
  exact List.eq_of_mem_replicate hx

/-- Characterization of a successful placement construction. -/
theorem constructAt_ok_char {et : ElemType α} {b : Block α} {i : Nat} {a : α} {b' : Block α}
    (h : constructAt et b i a = .ok b') : b' = b.set i (some a) ∧ i < b.length := by
  unfold constructAt at h
  cases hb : b[i]? with
  | none => rw [hb] at h; exact absurd h (by simp)
  | some o =>
    have hi : i < b.length := by
      by_contra hc
      rw [List.getElem?_eq_none (Nat.le_of_not_lt hc)] at hb
      exact Option.noConfusion hb
    cases o with
    | none => rw [hb] at h; exact ⟨(Except.ok.injEq _ _).mp h.symm ▸ rfl, hi⟩
    | some x =>
      rw [hb] at h
      by_cases ht : et.trivialDtor
      · rw [if_pos ht] at h
        exact ⟨((Except.ok.injEq _ _).mp h).symm, hi⟩
      · rw [if_neg ht] at h
        exact absurd h (by simp)

/-- Construction into a free in-range slot succeeds. -/
theorem constructAt_ok_free {et : ElemType α} {b : Block α} {i : Nat} (a : α)
    (h : b[i]? = some none) : constructAt et b i a = .ok (b.set i (some a)) := by
  unfold constructAt
  rw [h]

/-- Destroying a live slot succeeds. -/
theorem destroyAt_ok_live (et : ElemType α) {b : Block α} {i : Nat} {a : α}
    (h : b[i]? = some (some a)) :
    destroyAt et b i = .ok (if et.trivialDtor then b else b.set i none) := by
  unfold destroyAt
  rw [h]

/-- A successful destructor call preserves the block length. -/
theorem destroyAt_length {et : ElemType α} {b : Block α} {i : Nat} {b' : Block α}
    (h : destroyAt et b i = .ok b') : b'.length = b.length := by
  unfold destroyAt at h
  split at h
  · injection h with h
    subst h
    split <;> simp
  · split at h
    · injection h with h
      subst h
      rfl
    · exact absurd h (by simp)
  · exact absurd h (by simp)

/-- A successful `DestroyN` preserves the block length. -/
theorem destroyN_length {et : ElemType α} :
    ∀ {n : Nat} {b : Block α} {i : Nat} {b' : Block α},
      destroyN et b i n = .ok b' → b'.length = b.length
  | 0, b, i, b', h => by
      unfold destroyN at h
      rw [← (Except.ok.injEq _ _).mp h]
  | n + 1, b, i, b', h => by
      unfold destroyN at h
      cases hd : destroyAt et b i with
      | error m => rw [hd] at h; exact absurd h (by simp)
      | ok b1 =>
        rw [hd] at h
        exact (destroyN_length h).trans (destroyAt_length hd)

/-- Running `DestroyN` over a range of live slots succeeds (for any destructor kind). -/
theorem destroyN_ok_live (et : ElemType α) :
    ∀ (n : Nat) (b : Block α) (i : Nat),
      (∀ j, j < n → ∃ a, b[i + j]? = some (some a)) →
      ∃ b', destroyN et b i n = .ok b'
  | 0, b, i, _ => ⟨b, rfl⟩
  | n + 1, b, i, h => by
      obtain ⟨a, ha⟩ := h 0 (Nat.succ_pos n)
      rw [Nat.add_zero] at ha
      have hd := destroyAt_ok_live et ha
      by_cases ht : et.trivialDtor
      · rw [if_pos ht] at hd
        obtain ⟨b', hb'⟩ := destroyN_ok_live et n b (i + 1) (fun j hj => by
          have := h (j + 1) (Nat.succ_lt_succ hj)
          rw [show i + (j + 1) = i + 1 + j by omega] at this
          exact this)
        exact ⟨b', by unfold destroyN; rw [hd]; exact hb'⟩
      · rw [if_neg ht] at hd
        obtain ⟨b', hb'⟩ := destroyN_ok_live et n (b.set i none) (i + 1) (fun j hj => by
          have hj' := h (j + 1) (Nat.succ_lt_succ hj)
          rw [show i + (j + 1) = i + 1 + j by omega] at hj'
          rw [List.getElem?_set_ne (by omega)]
          exact hj')
        exact ⟨b', by unfold destroyN; rw [hd]; exact hb'⟩

/-- Characterization of `DestroyN` over live slots for a non-trivially
destructible element type: the range becomes uninitialized, the rest is
untouched. -/
theorem destroyN_ok_char (et : ElemType α) (ht : et.trivialDtor = false) :
    ∀ (n : Nat) (b : Block α) (i : Nat),
      (∀ j, j < n → ∃ a, b[i + j]? = some (some a)) →
      ∃ b', destroyN et b i n = .ok b' ∧ b'.length = b.length ∧
        (∀ j, j < n → b'[i + j]? = some none) ∧
        (∀ k, (k < i ∨ i + n ≤ k) → b'[k]? = b[k]?)
  | 0, b, i, _ => ⟨b, rfl, rfl, fun j hj => absurd hj (Nat.not_lt_zero j), fun _ _ => rfl⟩
  | n + 1, b, i, h => by
      obtain ⟨a, ha⟩ := h 0 (Nat.succ_pos n)
      rw [Nat.add_zero] at ha
      have hi : i < b.length := by
        by_contra hc
        rw [List.getElem?_eq_none (Nat.le_of_not_lt hc)] at ha
        exact Option.noConfusion ha
      have hd := destroyAt_ok_live et ha
      rw [ht] at hd
      simp only [Bool.false_eq_true, if_neg (by simp : ¬False)] at hd
      obtain ⟨b', hok, hlen, hin, hout⟩ := destroyN_ok_char et ht n (b.set i none) (i + 1)
        (fun j hj => by
          have hj' := h (j + 1) (Nat.succ_lt_succ hj)
          rw [show i + (j + 1) = i + 1 + j by omega] at hj'
          rw [List.getElem?_set_ne (by omega)]
          exact hj')
      refine ⟨b', by unfold destroyN; rw [hd]; exact hok, by simp [hlen], ?_, ?_⟩
      · intro j hj
        cases j with
        | zero =>
          rw [Nat.add_zero]
          rw [hout i (Or.inl (Nat.lt_succ_self i))]
          rw [List.getElem?_set_self hi]
        | succ j' =>
          have := hin j' (Nat.lt_of_succ_lt_succ hj)
          rw [show i + 1 + j' = i + (j' + 1) by omega] at this
          exact this
      · intro k hk
        have hk' : k < i + 1 ∨ i + 1 + n ≤ k := by omega
        rw [hout k (by omega)]
        rw [List.getElem?_set_ne (by omega)]

/-- An in-range read witnesses the bound. -/
theorem lt_length_of_getElem? {b : Block α} {i : Nat} {o : Option α} (h : b[i]? = some o) :
    i < b.length := by
  by_contra hc
  rw [List.getElem?_eq_none (Nat.le_of_not_lt hc)] at h
  exact Option.noConfusion h

/-- If `uninitialized_copy_n` lets an exception escape, its unwinding has
restored the destination block exactly to its previous state. -/
theorem uCopyN_thrown {et : ElemType α} :
    ∀ {n : Nat} {src : Block α} {sp : Nat} {dst : Block α} {dp : Nat} {d' : Block α},
      uninitializedCopyN et src sp n dst dp = .error (.thrown, d') → d' = dst
  | 0, src, sp, dst, dp, d', h => by
      unfold uninitializedCopyN at h
      simp at h
  | n + 1, src, sp, dst, dp, d', h => by
      unfold uninitializedCopyN at h
      split at h
      · split at h
        · cases h
          rfl
        · split at h
          · rename_i hdst
            split at h
            · simp at h
            · rename_i d heq
              cases h
              rw [uCopyN_thrown heq, List.set_set, set_eq_of_getElem? hdst]
            · injection h with h2
              subst h2
              rename_i hA hB
              exact absurd rfl (hA d')
          · simp at h
      · simp at h

/-- With a never-throwing move constructor, `uninitialized_move_n` cannot let
an exception escape. -/
theorem uMoveN_not_thrown {et : ElemType α} (hm : ∀ a, et.failMove a = false) :
    ∀ {n : Nat} {src : Block α} {sp : Nat} {dst : Block α} {dp : Nat} {s' d' : Block α},
      uninitializedMoveN et src sp n dst dp = .error (.thrown, s', d') → False
  | 0, src, sp, dst, dp, s', d', h => by
      unfold uninitializedMoveN at h
      simp at h
  | n + 1, src, sp, dst, dp, s', d', h => by
      unfold uninitializedMoveN at h
      split at h
      · split at h
        · rename_i a hsrc hf
          rw [hm a] at hf
          exact absurd hf (by simp)
        · split at h
          · split at h
            · simp at h
            · rename_i smid dmid heq
              exact uMoveN_not_thrown hm heq
            · injection h with h2
              subst h2
              rename_i hA hB
              exact absurd rfl (hA s' d')
          · simp at h
      · simp at h

/-- Characterization of a successful `uninitialized_copy_n`: the copied range
of the destination holds the source values, everything else is untouched, and
all copied values are live, non-throwing sources. -/
theorem uCopyN_ok_char {et : ElemType α} :
    ∀ {n : Nat} {src : Block α} {sp : Nat} {dst : Block α} {dp : Nat} {d : Block α},
      uninitializedCopyN et src sp n dst dp = .ok d →
      d.length = dst.length ∧
      (∀ j, j < n → ∃ a, src[sp + j]? = some (some a) ∧ et.failCopy a = false ∧
        d[dp + j]? = some (some a)) ∧
      (∀ k, k < dp ∨ dp + n ≤ k → d[k]? = dst[k]?)
  | 0, src, sp, dst, dp, d, h => by
      unfold uninitializedCopyN at h
      injection h with h
      subst h
      exact ⟨rfl, fun j hj => absurd hj (Nat.not_lt_zero j), fun k _ => rfl⟩
  | n + 1, src, sp, dst, dp, d, h => by
      unfold uninitializedCopyN at h
      split at h
      · split at h
        · simp at h
        · split at h
          · rename_i a hsrc hfc x2 hdst
            split at h
            · rename_i dmid heq
              injection h with h
              subst h
              have hdp : dp < dst.length := lt_length_of_getElem? hdst
              obtain ⟨hlen, hin, hout⟩ := uCopyN_ok_char heq
              refine ⟨hlen.trans (by simp), ?_, ?_⟩
              · intro j hj
                cases j with
                | zero =>
                  refine ⟨a, by rw [Nat.add_zero]; exact hsrc, by simpa using hfc, ?_⟩
                  rw [Nat.add_zero]
                  rw [hout dp (Or.inl (Nat.lt_succ_self dp))]
                  exact List.getElem?_set_self hdp
                | succ j' =>
                  obtain ⟨a', h1, h2, h3⟩ := hin j' (Nat.lt_of_succ_lt_succ hj)
                  rw [show sp + 1 + j' = sp + (j' + 1) by omega] at h1
                  rw [show dp + 1 + j' = dp + (j' + 1) by omega] at h3
                  exact ⟨a', h1, h2, h3⟩
              · intro k hk
                rw [hout k (by omega)]
                rw [List.getElem?_set_ne (by omega)]
            · simp at h
            · simp at h
          · simp at h
      · simp at h

/-- The function `uninitialized_copy_n` succeeds on a live, non-throwing source range and a
free destination range. -/
theorem uCopyN_ok_ex {et : ElemType α} :
    ∀ (n : Nat) (src : Block α) (sp : Nat) (dst : Block α) (dp : Nat),
      (∀ j, j < n → ∃ a, src[sp + j]? = some (some a) ∧ et.failCopy a = false) →
      (∀ j, j < n → dst[dp + j]? = some none) →
      ∃ d, uninitializedCopyN et src sp n dst dp = .ok d
  | 0, src, sp, dst, dp, _, _ => ⟨dst, rfl⟩
  | n + 1, src, sp, dst, dp, hsrc, hdst => by
      obtain ⟨a, ha, hfc⟩ := hsrc 0 (Nat.succ_pos n)
      rw [Nat.add_zero] at ha
      have hd0 := hdst 0 (Nat.succ_pos n)
      rw [Nat.add_zero] at hd0
      obtain ⟨d, hd⟩ := uCopyN_ok_ex n src (sp + 1) (dst.set dp (some a)) (dp + 1)
        (fun j hj => by
          obtain ⟨a', h1, h2⟩ := hsrc (j + 1) (Nat.succ_lt_succ hj)
          rw [show sp + (j + 1) = sp + 1 + j by omega] at h1
          exact ⟨a', h1, h2⟩)
        (fun j hj => by
          have hx := hdst (j + 1) (Nat.succ_lt_succ hj)
          rw [show dp + (j + 1) = dp + 1 + j by omega] at hx
          rw [List.getElem?_set_ne (by omega)]
          exact hx)
      refine ⟨d, ?_⟩
      unfold uninitializedCopyN
      rw [ha]
      simp only [hfc, Bool.false_eq_true, if_false, hd0, hd]

/-- Characterization of a successful `uninitialized_move_n`: the destination
range receives the source values, the sources are left live with their
moved-from residues, everything else in both blocks is untouched. -/
theorem uMoveN_ok_char {et : ElemType α} :
    ∀ {n : Nat} {src : Block α} {sp : Nat} {dst : Block α} {dp : Nat} {s' d : Block α},
      uninitializedMoveN et src sp n dst dp = .ok (s', d) →
      d.length = dst.length ∧ s'.length = src.length ∧
      (∀ j, j < n → ∃ a, src[sp + j]? = some (some a) ∧ d[dp + j]? = some (some a) ∧
        s'[sp + j]? = some (some (et.movedFrom a))) ∧
      (∀ k, k < dp ∨ dp + n ≤ k → d[k]? = dst[k]?) ∧
      (∀ k, k < sp ∨ sp + n ≤ k → s'[k]? = src[k]?)
  | 0, src, sp, dst, dp, s', d, h => by
      unfold uninitializedMoveN at h
      injection h with h
      injection h with h1 h2
      subst h1
      subst h2
      exact ⟨rfl, rfl, fun j hj => absurd hj (Nat.not_lt_zero j), fun k _ => rfl, fun k _ => rfl⟩
  | n + 1, src, sp, dst, dp, s', d, h => by
      unfold uninitializedMoveN at h
      split at h
      · split at h
        · simp at h
        · split at h
          · rename_i a hsrc hfm x2 hdst
            split at h
            · rename_i smid dmid heq
              injection h with h
              injection h with h1 h2
              subst h1
              subst h2
              have hdp : dp < dst.length := lt_length_of_getElem? hdst
              have hsp : sp < src.length := lt_length_of_getElem? hsrc
              obtain ⟨hdlen, hslen, hin, houtd, houts⟩ := uMoveN_ok_char heq
              refine ⟨hdlen.trans (by simp), hslen.trans (by simp), ?_, ?_, ?_⟩
              · intro j hj
                cases j with
                | zero =>
                  refine ⟨a, by rw [Nat.add_zero]; exact hsrc, ?_, ?_⟩
                  · rw [Nat.add_zero]
                    rw [houtd dp (Or.inl (Nat.lt_succ_self dp))]
                    exact List.getElem?_set_self hdp
                  · rw [Nat.add_zero]
                    rw [houts sp (Or.inl (Nat.lt_succ_self sp))]
                    exact List.getElem?_set_self hsp
                | succ j' =>
                  obtain ⟨a', h1, h2, h3⟩ := hin j' (Nat.lt_of_succ_lt_succ hj)
                  rw [show sp + 1 + j' = sp + (j' + 1) by omega] at h1 h3
                  rw [show dp + 1 + j' = dp + (j' + 1) by omega] at h2
                  rw [List.getElem?_set_ne (by omega : sp ≠ sp + (j' + 1))] at h1
                  exact ⟨a', h1, h2, h3⟩
              · intro k hk
                rw [houtd k (by omega)]
                rw [List.getElem?_set_ne (by omega)]
              · intro k hk
                rw [houts k (by omega)]
                rw [List.getElem?_set_ne (by omega)]
            · simp at h
            · simp at h
          · simp at h
      · simp at h

/-- Running `uninitialized_move_n` of a live range into a free range succeeds when
the move constructor never throws. -/
theorem uMoveN_ok_ex {et : ElemType α} (hm : ∀ a, et.failMove a = false) :
    ∀ (n : Nat) (src : Block α) (sp : Nat) (dst : Block α) (dp : Nat),
      (∀ j, j < n → ∃ a, src[sp + j]? = some (some a)) →
      (∀ j, j < n → dst[dp + j]? = some none) →
      ∃ s' d, uninitializedMoveN et src sp n dst dp = .ok (s', d)
  | 0, src, sp, dst, dp, _, _ => ⟨src, dst, rfl⟩
  | n + 1, src, sp, dst, dp, hsrc, hdst => by
      obtain ⟨a, ha⟩ := hsrc 0 (Nat.succ_pos n)
      rw [Nat.add_zero] at ha
      have hd0 := hdst 0 (Nat.succ_pos n)
      rw [Nat.add_zero] at hd0
      obtain ⟨s', d, hd⟩ := uMoveN_ok_ex hm n (src.set sp (some (et.movedFrom a))) (sp + 1)
        (dst.set dp (some a)) (dp + 1)
        (fun j hj => by
          obtain ⟨a', h1⟩ := hsrc (j + 1) (Nat.succ_lt_succ hj)
          rw [show sp + (j + 1) = sp + 1 + j by omega] at h1
          rw [List.getElem?_set_ne (by omega)]
          exact ⟨a', h1⟩)
        (fun j hj => by
          have hx := hdst (j + 1) (Nat.succ_lt_succ hj)
          rw [show dp + (j + 1) = dp + 1 + j by omega] at hx
          rw [List.getElem?_set_ne (by omega)]
          exact hx)
      refine ⟨s', d, ?_⟩
      unfold uninitializedMoveN
      rw [ha]
      simp only [hm a, Bool.false_eq_true, if_false, hd0, hd]

/-- If the trait-dispatched relocation lets an exception escape, then under
the C++ guarantees (a noexcept move never throws) and the claim proviso
(copyable, or moves never throw), the escape came from the copying branch,
whose unwinding left both blocks untouched. -/
theorem relocateN_thrown {et : ElemType α}
    (h1 : et.nothrowMove = true → ∀ a, et.failMove a = false)
    (h2 : et.copyable = true ∨ ∀ a, et.failMove a = false)
    {n : Nat} {src : Block α} {sp : Nat} {dst : Block α} {dp : Nat} {s' d' : Block α}
    (h : relocateN et src sp n dst dp = .error (.thrown, s', d')) : s' = src ∧ d' = dst := by
  unfold relocateN at h
  split at h
  · rename_i hcond
    exfalso
    have hm : ∀ a, et.failMove a = false := by
      rcases Bool.or_eq_true_iff.mp hcond with hnt | hnc
      · exact h1 hnt
      · rcases h2 with hcp | hm
        · rw [hcp] at hnc
          exact absurd hnc (by simp)
        · exact hm
    exact uMoveN_not_thrown hm h
  · split at h
    · simp at h
    · rename_i d0 heq
      injection h with h
      injection h with hpf h
      injection h with hs hd
      subst hpf
      exact ⟨hs.symm, hd ▸ uCopyN_thrown heq⟩

/-- Characterization of a successful relocation, common to both strategies:
the destination range receives the original source values, the source range
stays live (original values or moved-from residues), everything else in both
blocks is untouched. -/
theorem relocateN_ok_char {et : ElemType α}
    {n : Nat} {src : Block α} {sp : Nat} {dst : Block α} {dp : Nat} {s' d : Block α}
    (h : relocateN et src sp n dst dp = .ok (s', d)) :
    d.length = dst.length ∧ s'.length = src.length ∧
    (∀ j, j < n → ∃ a, src[sp + j]? = some (some a) ∧ d[dp + j]? = some (some a) ∧
      ∃ o, s'[sp + j]? = some (some o)) ∧
    (∀ k, k < dp ∨ dp + n ≤ k → d[k]? = dst[k]?) ∧
    (∀ k, k < sp ∨ sp + n ≤ k → s'[k]? = src[k]?) := by
  unfold relocateN at h
  split at h
  · obtain ⟨hdlen, hslen, hin, houtd, houts⟩ := uMoveN_ok_char h
    exact ⟨hdlen, hslen,
      fun j hj => by
        obtain ⟨a, ha1, ha2, ha3⟩ := hin j hj
        exact ⟨a, ha1, ha2, et.movedFrom a, ha3⟩,
      houtd, houts⟩
  · split at h
    · rename_i d0 heq
      injection h with h
      injection h with hs hd
      subst hs
      subst hd
      obtain ⟨hlen, hin, hout⟩ := uCopyN_ok_char heq
      exact ⟨hlen, rfl,
        fun j hj => by
          obtain ⟨a, ha1, _, ha3⟩ := hin j hj
          exact ⟨a, ha1, ha3, a, ha1⟩,
        hout, fun k _ => rfl⟩
    · simp at h

/-- Relocation of a live range into a free range succeeds when no element
operation throws. -/
theorem relocateN_ok_ex {et : ElemType α}
    (hc : ∀ a, et.failCopy a = false) (hm : ∀ a, et.failMove a = false)
    (n : Nat) (src : Block α) (sp : Nat) (dst : Block α) (dp : Nat)
    (hsrc : ∀ j, j < n → ∃ a, src[sp + j]? = some (some a))
    (hdst : ∀ j, j < n → dst[dp + j]? = some none) :
    ∃ s' d, relocateN et src sp n dst dp = .ok (s', d) := by
  unfold relocateN
  split
  · exact uMoveN_ok_ex hm n src sp dst dp hsrc hdst
  · obtain ⟨d, hd⟩ := uCopyN_ok_ex n src sp dst dp
      (fun j hj => by obtain ⟨a, ha⟩ := hsrc j hj; exact ⟨a, ha, hc a⟩) hdst
    exact ⟨src, d, by rw [hd]⟩


/-- In the copying strategy a successful relocation leaves the source block
untouched. -/
theorem relocateN_copy_src {et : ElemType α}
    (hcond : (et.nothrowMove || !et.copyable) = false)
    {n : Nat} {src : Block α} {sp : Nat} {dst : Block α} {dp : Nat} {s' d : Block α}
    (h : relocateN et src sp n dst dp = .ok (s', d)) : s' = src := by
  unfold relocateN at h
  rw [hcond] at h
  simp only [Bool.false_eq_true, if_false] at h
  split at h
  · rename_i d0 heq
    injection h with h
    injection h with hs hd
    exact hs.symm
  · simp at h

/-- Helper for the strong-guarantee proof: shape of `Reallocate1` when an
exception escapes from the relocation of a full container into a new block
already holding the new element at index `size_`. -/
theorem growEx1 {et : ElemType α} (h0 : et.trivialDtor = false)
    (h1 : et.nothrowMove = true → ∀ a, et.failMove a = false)
    (h2 : et.copyable = true ∨ ∀ a, et.failMove a = false)
    (v : Vector α) (a : α) (nc : Nat) (hnc : v.size_ < nc) {st : Vector α} {blk : Block α}
    (h : Reallocate1 et v ((List.replicate nc none).set v.size_ (some a)) =
      .error (.ex st blk)) :
    st = v ∧ AllNone blk := by
  unfold Reallocate1 at h
  split at h
  · rename_i s' d' heq
    obtain ⟨hs, hd⟩ := relocateN_thrown h1 h2 heq
    subst hs
    subst hd
    have hndsz : ((List.replicate nc none).set v.size_ (some (a : α)))[v.size_]? =
        some (some a) := by
      rw [List.getElem?_set_self (by simpa using hnc)]
    obtain ⟨b', hok, hlen, hin, hout⟩ := destroyN_ok_char et h0 1
      ((List.replicate nc none).set v.size_ (some a)) v.size_
      (fun j hj => by
        interval_cases j
        exact ⟨a, by rw [Nat.add_zero]; exact hndsz⟩)
    rw [hok] at h
    injection h with h
    injection h with hst hblk
    subst hst
    subst hblk
    refine ⟨rfl, allNone_of_getElem? ?_⟩
    intro k hk
    rcases eq_or_ne k v.size_ with rfl | hkne
    · have := hin 0 Nat.zero_lt_one
      rw [Nat.add_zero] at this
      exact this
    · rw [hout k (by omega)]
      rw [List.getElem?_set_ne (Ne.symm hkne)]
      rw [List.getElem?_replicate]
      rw [if_pos (by simpa [hlen] using hk)]
  · simp at h
  · rename_i s' d' heq
    split at h
    · simp at h
    · simp at h

/-- Helper for the strong-guarantee proof: shape of a growing `Reserve` when
an exception escapes from the relocation. -/
theorem reserveEx {et : ElemType α}
    (h1 : et.nothrowMove = true → ∀ a, et.failMove a = false)
    (h2 : et.copyable = true ∨ ∀ a, et.failMove a = false)
    (v : Vector α) (n : Nat) {st : Vector α} {blk : Block α}
    (h : Reserve et v n = .error (.ex st blk)) : st = v ∧ AllNone blk := by
  unfold Reserve at h
  split at h
  · simp at h
  · dsimp only at h
    split at h
    · rename_i s' d' heq
      obtain ⟨hs, hd⟩ := relocateN_thrown h1 h2 heq
      subst hs
      subst hd
      injection h with h
      injection h with hst hblk
      subst hst
      subst hblk
      exact ⟨rfl, allNone_replicate n⟩
    · simp at h
    · rename_i s' d' heq
      split at h
      · simp at h
      · simp at h

/-- Helper for the strong-guarantee proof: shape of `Reallocate2` when an
exception escapes from either relocation phase. -/
theorem growEx2 {et : ElemType α} (h0 : et.trivialDtor = false)
    (h1 : et.nothrowMove = true → ∀ a, et.failMove a = false)
    (h2 : et.copyable = true ∨ ∀ a, et.failMove a = false)
    (v : Vector α) (a : α) (nc pos : Nat) (hnc : pos < nc) {st : Vector α} {blk : Block α}
    (h : Reallocate2 et v ((List.replicate nc none).set pos (some a)) pos =
      .error (.ex st blk)) :
    st = v ∧ AllNone blk := by
  have hndsz : ((List.replicate nc none).set pos (some (a : α)))[pos]? = some (some a) := by
    rw [List.getElem?_set_self (by simpa using hnc)]
  unfold Reallocate2 at h
  split at h
  · -- phase 1 threw
    rename_i s' d' heq
    obtain ⟨hs, hd⟩ := relocateN_thrown h1 h2 heq
    subst hs
    subst hd
    obtain ⟨b', hok, hlen, hin, hout⟩ := destroyN_ok_char et h0 1
      ((List.replicate nc none).set pos (some a)) pos
      (fun j hj => by
        interval_cases j
        exact ⟨a, by rw [Nat.add_zero]; exact hndsz⟩)
    rw [hok] at h
    injection h with h
    injection h with hst hblk
    subst hst
    subst hblk
    refine ⟨rfl, allNone_of_getElem? ?_⟩
    intro k hk
    rcases eq_or_ne k pos with rfl | hkne
    · have := hin 0 Nat.zero_lt_one
      rw [Nat.add_zero] at this
      exact this
    · rw [hout k (by omega)]
      rw [List.getElem?_set_ne (Ne.symm hkne)]
      rw [List.getElem?_replicate]
      rw [if_pos (by simpa [hlen] using hk)]
  · simp at h
  · -- phase 1 succeeded
    rename_i s1 d1 heq1
    split at h
    · -- phase 2 threw
      rename_i s2 d2 heq2
      obtain ⟨hs2, hd2⟩ := relocateN_thrown h1 h2 heq2
      subst hs2
      subst hd2
      -- phase 2 can only throw in the copying strategy, where phase 1 kept the source
      have hcond : (et.nothrowMove || !et.copyable) = false := by
        by_contra hc
        have hm : ∀ x, et.failMove x = false := by
          rcases Bool.or_eq_true_iff.mp (Bool.of_not_eq_false hc) with hnt | hnc2
          · exact h1 hnt
          · rcases h2 with hcp | hm
            · rw [hcp] at hnc2
              exact absurd hnc2 (by simp)
            · exact hm
        unfold relocateN at heq2
        rw [Bool.of_not_eq_false hc] at heq2
        simp only [if_true] at heq2
        exact uMoveN_not_thrown hm heq2
      have hs1 : s2 = v.data_.buffer := relocateN_copy_src hcond heq1
      subst hs1
      obtain ⟨hd1len, hs1len, hin1, hout1, houts1⟩ := relocateN_ok_char heq1
      obtain ⟨b', hok, hlen, hin, hout⟩ := destroyN_ok_char et h0 (pos + 1) d2 0
        (fun j hj => by
          rcases Nat.lt_or_ge j pos with hjp | hjp
          · obtain ⟨x, hx1, hx2, hx3⟩ := hin1 j hjp
            rw [Nat.zero_add] at hx2 ⊢
            exact ⟨x, hx2⟩
          · have hjeq : j = pos := by omega
            subst hjeq
            rw [Nat.zero_add]
            rw [hout1 j (Or.inr (by omega))]
            exact ⟨a, hndsz⟩)
      rw [hok] at h
      injection h with h
      injection h with hst hblk
      subst hst
      subst hblk
      refine ⟨rfl, allNone_of_getElem? ?_⟩
      intro k hk
      rcases Nat.lt_or_ge k (pos + 1) with hkp | hkp
      · have := hin k hkp
        rw [Nat.zero_add] at this
        exact this
      · rw [hout k (Or.inr (by omega))]
        rw [hout1 k (Or.inr (by omega))]
        rw [List.getElem?_set_ne (by omega)]
        rw [List.getElem?_replicate]
        rw [if_pos (by simp [hlen, hd1len] at hk; simpa using hk)]
    · simp at h
    · rename_i s2 d2 heq2
      split at h
      · simp at h
      · simp at h

/-- Strong guarantee of the at-capacity `PushBack(const T&)` path. -/
theorem pushBackCopy_ex {et : ElemType α} (h0 : et.trivialDtor = false)
    (h1 : et.nothrowMove = true → ∀ a, et.failMove a = false)
    (h2 : et.copyable = true ∨ ∀ a, et.failMove a = false)
    {v : Vector α} (hcap : v.size_ = v.data_.Capacity) {value : α} {st : Vector α}
    {blk : Block α} (hex : PushBackCopy et v value = .error (.ex st blk)) :
    st = v ∧ AllNone blk := by
  unfold PushBackCopy at hex
  split at hex
  · dsimp only at hex
    split at hex
    · injection hex with hex
      injection hex with hst hblk
      subst hst
      subst hblk
      exact ⟨rfl, allNone_replicate _⟩
    · rename_i a heqa
      split at hex
      · simp at hex
      · rename_i nd heqc
        obtain ⟨hnd, hlt⟩ := constructAt_ok_char heqc
        rw [List.length_replicate] at hlt
        subst hnd
        split at hex
        · rename_i f heqf
          injection hex with hex
          subst hex
          exact growEx1 h0 h1 h2 v a _ hlt heqf
        · simp at hex
  · rename_i hne
    exact absurd hcap hne

/-- Strong guarantee of the at-capacity `PushBack(T&&)` path. -/
theorem pushBackMove_ex {et : ElemType α} (h0 : et.trivialDtor = false)
    (h1 : et.nothrowMove = true → ∀ a, et.failMove a = false)
    (h2 : et.copyable = true ∨ ∀ a, et.failMove a = false)
    {v : Vector α} (hcap : v.size_ = v.data_.Capacity) {value : α} {st : Vector α}
    {blk : Block α} (hex : PushBackMove et v value = .error (.ex st blk)) :
    st = v ∧ AllNone blk := by
  unfold PushBackMove at hex
  split at hex
  · dsimp only at hex
    split at hex
    · injection hex with hex
      injection hex with hst hblk
      subst hst
      subst hblk
      exact ⟨rfl, allNone_replicate _⟩
    · rename_i a heqa
      split at hex
      · simp at hex
      · rename_i nd heqc
        obtain ⟨hnd, hlt⟩ := constructAt_ok_char heqc
        rw [List.length_replicate] at hlt
        subst hnd
        split at hex
        · rename_i f heqf
          injection hex with hex
          subst hex
          exact growEx1 h0 h1 h2 v a _ hlt heqf
        · simp at hex
  · rename_i hne
    exact absurd hcap hne

/-- Strong guarantee of the at-capacity `EmplaceBack` path. -/
theorem emplaceBack_ex {et : ElemType α} (h0 : et.trivialDtor = false)
    (h1 : et.nothrowMove = true → ∀ a, et.failMove a = false)
    (h2 : et.copyable = true ∨ ∀ a, et.failMove a = false)
    {v : Vector α} (hcap : v.size_ = v.data_.Capacity) {mk : Except Unit α} {st : Vector α}
    {blk : Block α} (hex : EmplaceBack et v mk = .error (.ex st blk)) :
    st = v ∧ AllNone blk := by
  cases mk with
  | error e =>
    unfold EmplaceBack at hex
    split at hex
    · dsimp only at hex
      injection hex with hex
      injection hex with hst hblk
      subst hst
      subst hblk
      exact ⟨rfl, allNone_replicate _⟩
    · rename_i hne
      exact absurd hcap hne
  | ok a =>
    unfold EmplaceBack at hex
    split at hex
    · dsimp only at hex
      split at hex
      · simp at hex
      · rename_i nd heqc
        obtain ⟨hnd, hlt⟩ := constructAt_ok_char heqc
        rw [List.length_replicate] at hlt
        subst hnd
        split at hex
        · rename_i f heqf
          injection hex with hex
          subst hex
          exact growEx1 h0 h1 h2 v a _ hlt heqf
        · simp at hex
    · rename_i hne
      exact absurd hcap hne

theorem insertGrow_ex {et : ElemType α} (h0 : et.trivialDtor = false)
    (h1 : et.nothrowMove = true → ∀ a, et.failMove a = false)
    (h2 : et.copyable = true ∨ ∀ a, et.failMove a = false)
    {v : Vector α} {pos : Nat} {mk : Except Unit α} {st : Vector α}
    {blk : Block α} (hex : insertGrow et v pos mk = .error (.ex st blk)) :
    st = v ∧ AllNone blk := by
  cases mk with
  | error e =>
    unfold insertGrow at hex
    dsimp only at hex
    injection hex with hex
    injection hex with hst hblk
    subst hst
    subst hblk
    exact ⟨rfl, allNone_replicate _⟩
  | ok a =>
    unfold insertGrow at hex
    dsimp only at hex
    split at hex
    · simp at hex
    · rename_i nd heqc
      obtain ⟨hnd, hlt⟩ := constructAt_ok_char heqc
      rw [List.length_replicate] at hlt
      subst hnd
      split at hex
      · rename_i f heqf
        injection hex with hex
        subst hex
        exact growEx2 h0 h1 h2 v a _ pos hlt heqf
      · simp at hex


/-- A successful `Resize` always ends with `size_ = new_size`. -/
theorem Resize_ok_size {et : ElemType α} {v : Vector α} {n : Nat} {v' : Vector α}
    (h : Resize et v n = .ok v') : v'.size_ = n := by
  unfold Resize at h
  split at h
  · rename_i hsz
    injection h with h
    subst h
    exact hsz
  · split at h
    · split at h
      · simp at h
      · split at h
        · rename_i b heqb
          injection h with h
          subst h
          rfl
        · simp at h
    · split at h
      · rename_i b heqb
        injection h with h
        subst h
        rfl
      · simp at h

/-- A well-formed vector has a live element in every slot below `size_`. -/
theorem WF_live {v : Vector α} (hwf : WF v) {i : Nat} (hi : i < v.size_) :
    ∃ a, v.data_.buffer[i]? = some (some a) := by
  have := hwf.2.1 i hi
  cases hb : v.data_.buffer[i]? with
  | none => rw [hb] at this; simp at this
  | some o =>
    cases o with
    | none => rw [hb] at this; simp at this
    | some a => exact ⟨a, rfl⟩

/-- A successful slot-to-slot move-assignment preserves the block length. -/
theorem moveAssignFromSlot_length {et : ElemType α} {b : Block α} {src dst : Nat}
    {b' : Block α} (h : moveAssignFromSlot et b src dst = .ok b') :
    b'.length = b.length := by
  unfold moveAssignFromSlot at h
  split at h
  · split at h
    · simp at h
    · split at h
      · injection h with h
        subst h
        simp
      · split at h
        · injection h with h
          subst h
          simp
        · simp at h
      · simp at h
  · simp at h

/-- The inner loop of `std::move` preserves the block length. -/
theorem mfGo_length {et : ElemType α} :
    ∀ {c : Nat} {b : Block α} {first d_first : Nat} {b' : Block α},
      mfGo et b first d_first c = .ok b' → b'.length = b.length
  | 0, b, first, d_first, b', h => by
      unfold mfGo at h
      injection h with h
      subst h
      rfl
  | c + 1, b, first, d_first, b', h => by
      unfold mfGo at h
      split at h
      · rename_i b1 heq
        exact (mfGo_length h).trans (moveAssignFromSlot_length heq)
      · simp at h

/-- Running `std::move` over a block preserves its length. -/
theorem moveForwardN_length {et : ElemType α} {b : Block α} {first last d_first : Nat}
    {b' : Block α} (h : moveForwardN et b first last d_first = .ok b') :
    b'.length = b.length := by
  unfold moveForwardN at h
  split at h
  · simp at h
  · exact mfGo_length h

/-- For a trivially destructible element type a slot-to-slot move-assignment
into any in-range destination succeeds. -/
theorem moveAssignFromSlot_triv_ok {et : ElemType α} (ht : et.trivialDtor = true)
    {b : Block α} {src dst : Nat} {a : α} (hsrc : b[src]? = some (some a))
    (hfm : et.failMove a = false) (hdst : dst < b.length) :
    moveAssignFromSlot et b src dst =
      .ok ((b.set dst (some a)).set src (some (et.movedFrom a))) := by
  unfold moveAssignFromSlot
  rw [hsrc]
  cases ho : b[dst]? with
  | none =>
    exact absurd ho (by rw [List.getElem?_eq_none_iff]; omega)
  | some o =>
    cases o with
    | none => simp only [hfm, Bool.false_eq_true, if_false, ho, ht, if_true]
    | some x => simp only [hfm, Bool.false_eq_true, if_false, ho]

/-- The inner loop of `std::move` succeeds for a trivially destructible
element type when the source range is live and the moves cannot throw. -/
theorem mfGo_triv_ok {et : ElemType α} (ht : et.trivialDtor = true)
    (hm : ∀ a, et.failMove a = false) :
    ∀ (c : Nat) (b : Block α) (first d_first : Nat),
      (∀ j, j < c → ∃ a, b[first + j]? = some (some a)) →
      (∀ j, j < c → d_first + j < b.length) →
      d_first < first →
      ∃ b', mfGo et b first d_first c = .ok b'
  | 0, b, first, d_first, _, _, _ => ⟨b, rfl⟩
  | c + 1, b, first, d_first, hlive, hbound, hlt => by
      obtain ⟨a, ha⟩ := hlive 0 (Nat.succ_pos c)
      rw [Nat.add_zero] at ha
      have hd0 : d_first < b.length := by
        have := hbound 0 (Nat.succ_pos c)
        omega
      have hstep := moveAssignFromSlot_triv_ok ht ha (hm a) hd0
      obtain ⟨b', hb'⟩ := mfGo_triv_ok ht hm c
        ((b.set d_first (some a)).set first (some (et.movedFrom a))) (first + 1) (d_first + 1)
        (fun j hj => by
          obtain ⟨x, hx⟩ := hlive (j + 1) (Nat.succ_lt_succ hj)
          rw [show first + (j + 1) = first + 1 + j by omega] at hx
          rw [List.getElem?_set_ne (by omega), List.getElem?_set_ne (by omega)]
          exact ⟨x, hx⟩)
        (fun j hj => by
          have := hbound (j + 1) (Nat.succ_lt_succ hj)
          simpa using by omega)
        (by omega)
      refine ⟨b', ?_⟩
      unfold mfGo
      rw [hstep]
      exact hb'


/-- Success of `Reallocate` on a full container (the only way the source
calls it): the new buffer receives all element values, everything above the
old size is untouched, and the old block is destroyed without fault. -/
theorem Reallocate1_ok {et : ElemType α}
    (hc : ∀ a, et.failCopy a = false) (hm : ∀ a, et.failMove a = false)
    {v : Vector α} {nd : Block α}
    (hsz : v.data_.buffer.length = v.size_)
    (hlive : ∀ j, j < v.size_ → ∃ a, v.data_.buffer[j]? = some (some a))
    (hfree : ∀ j, j < v.size_ → nd[j]? = some none) :
    ∃ d, Reallocate1 et v nd = .ok d ∧ d.length = nd.length ∧
      (∀ j, j < v.size_ → d[j]? = v.data_.buffer[j]?) ∧
      (∀ k, v.size_ ≤ k → d[k]? = nd[k]?) := by
  obtain ⟨s', d, hrel⟩ := relocateN_ok_ex hc hm v.size_ v.data_.buffer 0 nd 0
    (fun j hj => by rw [Nat.zero_add]; exact hlive j hj)
    (fun j hj => by rw [Nat.zero_add]; exact hfree j hj)
  obtain ⟨hdlen, hslen, hin, houtd, houts⟩ := relocateN_ok_char hrel
  obtain ⟨b2, hdes⟩ := destroyN_ok_live et s'.length s' 0
    (fun j hj => by
      rw [Nat.zero_add]
      obtain ⟨a, h1, h2, o, h3⟩ := hin j (by omega)
      rw [Nat.zero_add] at h3
      exact ⟨o, h3⟩)
  refine ⟨d, ?_, hdlen, ?_, ?_⟩
  · unfold Reallocate1
    simp only [hrel, hdes]
  · intro j hj
    obtain ⟨a, h1, h2, _⟩ := hin j hj
    rw [Nat.zero_add] at h1 h2
    rw [h1, h2]
  · intro k hk
    exact houtd k (Or.inr (by omega))

/-- Success and full characterization of `PushBack(const T&)` when no element
operation throws: the element values are preserved, the new element sits at
the old size, every slot above it is uninitialized, and the capacity is
doubled (or set to 1) exactly when the container was full. -/
theorem pushBackCopy_ok {et : ElemType α}
    (hc : ∀ a, et.failCopy a = false) (hm : ∀ a, et.failMove a = false)
    {v : Vector α} (hwf : WF v) (value : α) :
    ∃ b, PushBackCopy et v value = .ok (⟨⟨b⟩, v.size_ + 1⟩, none) ∧
      b.length = (if v.size_ = v.data_.Capacity
        then (if v.size_ = 0 then 1 else v.size_ * 2) else v.data_.Capacity) ∧
      (∀ j, j < v.size_ → b[j]? = v.data_.buffer[j]?) ∧
      b[v.size_]? = some (some value) ∧
      (∀ k, v.size_ < k → k < b.length → b[k]? = some none) := by
  by_cases hcap : v.size_ = v.data_.Capacity
  · have hnc : v.size_ < (if v.size_ = 0 then 1 else v.size_ * 2) := by
      split <;> omega
    have heqc : constructAt et (List.replicate (if v.size_ = 0 then 1 else v.size_ * 2)
        ((none : Option α))) v.size_ value = .ok
        ((List.replicate (if v.size_ = 0 then 1 else v.size_ * 2) none).set v.size_
          (some value)) :=
      constructAt_ok_free value (by rw [List.getElem?_replicate, if_pos hnc])
    obtain ⟨d, hR, hdlen, hdin, hdout⟩ := @Reallocate1_ok _ _ hc hm v
      ((List.replicate (if v.size_ = 0 then 1 else v.size_ * 2) none).set v.size_
        (some value))
      (hcap.symm)
      (fun j hj => WF_live hwf hj)
      (fun j hj => by
        rw [List.getElem?_set_ne (by omega), List.getElem?_replicate, if_pos (by omega)])
    refine ⟨d, ?_, ?_, hdin, ?_, ?_⟩
    · unfold PushBackCopy
      rw [if_pos hcap]
      dsimp only
      simp only [copyCtorVal, hc value, Bool.false_eq_true, if_false, heqc, hR]
    · rw [hdlen, List.length_set, List.length_replicate, if_pos hcap]
    · rw [hdout v.size_ (Nat.le_refl _), List.getElem?_set_self (by simpa using hnc)]
    · intro k hk1 hk2
      rw [hdout k (by omega), List.getElem?_set_ne (by omega), List.getElem?_replicate,
        if_pos (by rw [hdlen, List.length_set, List.length_replicate] at hk2; exact hk2)]
  · have hlt : v.size_ < v.data_.Capacity := Nat.lt_of_le_of_ne hwf.1 hcap
    have hfree : v.data_.buffer[v.size_]? = some none :=
      hwf.2.2 v.size_ (Nat.le_refl _) hlt
    have heqc := @constructAt_ok_free _ et _ _ value hfree
    refine ⟨v.data_.buffer.set v.size_ (some value), ?_, ?_, ?_, ?_, ?_⟩
    · unfold PushBackCopy
      rw [if_neg hcap]
      simp only [copyCtorVal, hc value, Bool.false_eq_true, if_false, heqc]
    · rw [List.length_set, if_neg hcap]
      rfl
    · intro j hj
      rw [List.getElem?_set_ne (by omega)]
    · rw [List.getElem?_set_self (by exact hlt)]
    · intro k hk1 hk2
      rw [List.getElem?_set_ne (by omega)]
      exact hwf.2.2 k (by omega) (by simpa using hk2)

/-- With non-throwing element operations `PushBack(T&&)` computes exactly
what `PushBack(const T&)` computes. -/
theorem pushBackMove_eq {et : ElemType α}
    (hc : ∀ a, et.failCopy a = false) (hm : ∀ a, et.failMove a = false)
    (v : Vector α) (value : α) :
    PushBackMove et v value = PushBackCopy et v value := by
  unfold PushBackMove PushBackCopy
  simp only [copyCtorVal, moveCtorVal, hc value, hm value, Bool.false_eq_true, if_false]

/-- Success and characterization of `EmplaceBack` when the element
construction and the relocations succeed; the returned reference designates
index `size_ - 1` of the new state, i.e. the old `size_`. -/
theorem emplaceBack_ok {et : ElemType α}
    (hc : ∀ a, et.failCopy a = false) (hm : ∀ a, et.failMove a = false)
    {v : Vector α} (hwf : WF v) (a : α) :
    ∃ b, EmplaceBack et v (.ok a) = .ok (⟨⟨b⟩, v.size_ + 1⟩, some v.size_) ∧
      b.length = (if v.size_ = v.data_.Capacity
        then (if v.size_ = 0 then 1 else v.size_ * 2) else v.data_.Capacity) ∧
      (∀ j, j < v.size_ → b[j]? = v.data_.buffer[j]?) ∧
      b[v.size_]? = some (some a) ∧
      (∀ k, v.size_ < k → k < b.length → b[k]? = some none) := by
  by_cases hcap : v.size_ = v.data_.Capacity
  · have hnc : v.size_ < (if v.size_ = 0 then 1 else v.size_ * 2) := by
      split <;> omega
    have heqc : constructAt et (List.replicate (if v.size_ = 0 then 1 else v.size_ * 2)
        ((none : Option α))) v.size_ a = .ok
        ((List.replicate (if v.size_ = 0 then 1 else v.size_ * 2) none).set v.size_
          (some a)) :=
      constructAt_ok_free a (by rw [List.getElem?_replicate, if_pos hnc])
    obtain ⟨d, hR, hdlen, hdin, hdout⟩ := @Reallocate1_ok _ _ hc hm v
      ((List.replicate (if v.size_ = 0 then 1 else v.size_ * 2) none).set v.size_
        (some a))
      (hcap.symm)
      (fun j hj => WF_live hwf hj)
      (fun j hj => by
        rw [List.getElem?_set_ne (by omega), List.getElem?_replicate, if_pos (by omega)])
    refine ⟨d, ?_, ?_, hdin, ?_, ?_⟩
    · unfold EmplaceBack
      rw [if_pos hcap]
      dsimp only
      simp only [heqc, hR]
    · rw [hdlen, List.length_set, List.length_replicate, if_pos hcap]
    · rw [hdout v.size_ (Nat.le_refl _), List.getElem?_set_self (by simpa using hnc)]
    · intro k hk1 hk2
      rw [hdout k (by omega), List.getElem?_set_ne (by omega), List.getElem?_replicate,
        if_pos (by rw [hdlen, List.length_set, List.length_replicate] at hk2; exact hk2)]
  · have hlt : v.size_ < v.data_.Capacity := Nat.lt_of_le_of_ne hwf.1 hcap
    have hfree : v.data_.buffer[v.size_]? = some none :=
      hwf.2.2 v.size_ (Nat.le_refl _) hlt
    have heqc := @constructAt_ok_free _ et _ _ a hfree
    refine ⟨v.data_.buffer.set v.size_ (some a), ?_, ?_, ?_, ?_, ?_⟩
    · unfold EmplaceBack
      rw [if_neg hcap]
      simp only [heqc]
    · rw [List.length_set, if_neg hcap]
      rfl
    · intro j hj
      rw [List.getElem?_set_ne (by omega)]
    · rw [List.getElem?_set_self (by exact hlt)]
    · intro k hk1 hk2
      rw [List.getElem?_set_ne (by omega)]
      exact hwf.2.2 k (by omega) (by simpa using hk2)


/-- A single append preserves the growth invariant and never shrinks the
capacity. -/
theorem stepAppend_inv {et : ElemType α}
    (hc : ∀ a, et.failCopy a = false) (hm : ∀ a, et.failMove a = false)
    {n : Nat} {v : Vector α} (hinv : CapInv n v) (op : AppendOp α) :
    ∃ w, stepAppend et v op = .ok w ∧ CapInv (n + 1) w ∧ v.Capacity ≤ w.Capacity := by
  obtain ⟨hsz, hwf, hz, hp⟩ := hinv
  have key : ∀ (b : Block α),
      b.length = (if v.size_ = v.data_.Capacity
        then (if v.size_ = 0 then 1 else v.size_ * 2) else v.data_.Capacity) →
      (∀ j, j < v.size_ → b[j]? = v.data_.buffer[j]?) →
      (∃ x, b[v.size_]? = some (some x)) →
      (∀ k, v.size_ < k → k < b.length → b[k]? = some none) →
      CapInv (n + 1) (⟨⟨b⟩, v.size_ + 1⟩ : Vector α) ∧
        v.Capacity ≤ (⟨⟨b⟩, v.size_ + 1⟩ : Vector α).Capacity := by
    intro b hlen hin hat habove
    obtain ⟨x, hx⟩ := hat
    have hble : v.size_ + 1 ≤ b.length := lt_length_of_getElem? hx
    have hz' : n = 0 → v.data_.Capacity = 0 := hz
    have hp' : 1 ≤ n → (∃ k, v.data_.Capacity = 2 ^ k) ∧ n ≤ v.data_.Capacity ∧
        v.data_.Capacity < 2 * n := hp
    have hcapfacts : ((n + 1 = 0 → b.length = 0) ∧
        (1 ≤ n + 1 → (∃ k, b.length = 2 ^ k) ∧ n + 1 ≤ b.length ∧ b.length < 2 * (n + 1))) ∧
        v.data_.Capacity ≤ b.length := by
      by_cases hcap : v.size_ = v.data_.Capacity
      · rw [if_pos hcap, hsz] at hlen
        rcases Nat.eq_zero_or_pos n with hn0 | hn0
        · subst hn0
          rw [if_pos rfl] at hlen
          have hc0 : v.data_.Capacity = 0 := hz' rfl
          refine ⟨⟨fun h => absurd h (by omega), fun _ => ⟨⟨0, by omega⟩, by omega, by omega⟩⟩,
            by omega⟩
        · rw [if_neg (by omega)] at hlen
          obtain ⟨⟨k, hk⟩, hle, hlt⟩ := hp' hn0
          have hcn : v.data_.Capacity = n := by rw [← hcap]; exact hsz
          refine ⟨⟨fun h => absurd h (by omega), fun _ =>
            ⟨⟨k + 1, by rw [pow_succ]; omega⟩, by omega, by omega⟩⟩, by omega⟩
      · rw [if_neg hcap] at hlen
        have hltc : v.size_ < v.data_.Capacity := Nat.lt_of_le_of_ne hwf.1 hcap
        have hn1 : 1 ≤ n := by
          by_contra hn
          have : n = 0 := by omega
          subst this
          have := hz' rfl
          omega
        obtain ⟨⟨k, hk⟩, hle, hlt⟩ := hp' hn1
        refine ⟨⟨fun h => absurd h (by omega), fun _ => ⟨⟨k, by omega⟩, by omega, by omega⟩⟩,
          by omega⟩
    refine ⟨⟨by simp [hsz], ⟨hble, ?_, ?_⟩, fun h => absurd h (by omega), ?_⟩, ?_⟩
    · intro i hi
      have hi' : i < v.size_ + 1 := hi
      rcases Nat.lt_or_ge i v.size_ with hiv | hiv
      · show ((b[i]?).bind id).isSome = true
        rw [hin i hiv]
        obtain ⟨a, ha⟩ := WF_live hwf hiv
        rw [ha]
        rfl
      · have hieq : i = v.size_ := by omega
        show ((b[i]?).bind id).isSome = true
        rw [hieq, hx]
        rfl
    · intro i hi1 hi2
      exact habove i hi1 hi2
    · exact fun _ => hcapfacts.1.2 (by omega)
    · exact hcapfacts.2
  cases op with
  | push a =>
    obtain ⟨b, hpb, hlen, hin, hat, habove⟩ := pushBackCopy_ok hc hm hwf a
    refine ⟨⟨⟨b⟩, v.size_ + 1⟩, ?_, ?_, ?_⟩
    · show (PushBackCopy et v a).map (fun p => p.1) = _
      rw [hpb]
      rfl
    · exact (key b hlen hin ⟨a, hat⟩ habove).1
    · exact (key b hlen hin ⟨a, hat⟩ habove).2
  | pushMove a =>
    obtain ⟨b, hpb, hlen, hin, hat, habove⟩ := pushBackCopy_ok hc hm hwf a
    refine ⟨⟨⟨b⟩, v.size_ + 1⟩, ?_, ?_, ?_⟩
    · show (PushBackMove et v a).map (fun p => p.1) = _
      rw [pushBackMove_eq hc hm, hpb]
      rfl
    · exact (key b hlen hin ⟨a, hat⟩ habove).1
    · exact (key b hlen hin ⟨a, hat⟩ habove).2
  | emplace a =>
    obtain ⟨b, hpb, hlen, hin, hat, habove⟩ := emplaceBack_ok hc hm hwf a
    refine ⟨⟨⟨b⟩, v.size_ + 1⟩, ?_, ?_, ?_⟩
    · show (EmplaceBack et v (.ok a)).map (fun p => p.1) = _
      rw [hpb]
      rfl
    · exact (key b hlen hin ⟨a, hat⟩ habove).1
    · exact (key b hlen hin ⟨a, hat⟩ habove).2

/-- Running a list of appends from any state satisfying the growth invariant
succeeds, preserves it, and never shrinks the capacity. -/
theorem runAppendsFrom_inv {et : ElemType α}
    (hc : ∀ a, et.failCopy a = false) (hm : ∀ a, et.failMove a = false) :
    ∀ (l : List (AppendOp α)) {n : Nat} {v : Vector α}, CapInv n v →
      ∃ w, runAppendsFrom et v l = .ok w ∧ CapInv (n + l.length) w ∧
        v.Capacity ≤ w.Capacity
  | [], n, v, hinv => ⟨v, rfl, by simpa using hinv, Nat.le_refl _⟩
  | op :: t, n, v, hinv => by
      obtain ⟨w1, hs, hinv1, hcap1⟩ := stepAppend_inv hc hm hinv op
      obtain ⟨w, hr, hinvw, hcapw⟩ := runAppendsFrom_inv hc hm t hinv1
      refine ⟨w, ?_, ?_, Nat.le_trans hcap1 hcapw⟩
      · unfold runAppendsFrom
        rw [hs]
        exact hr
      · have : n + 1 + t.length = n + (op :: t).length := by simp; omega
        rw [← this]
        exact hinvw

/-- Appending to the operation list composes runs. -/
theorem runAppendsFrom_append {et : ElemType α} :
    ∀ (l1 l2 : List (AppendOp α)) (v : Vector α),
      runAppendsFrom et v (l1 ++ l2) =
        match runAppendsFrom et v l1 with
        | .ok w => runAppendsFrom et w l2
        | .error f => .error f
  | [], l2, v => rfl
  | op :: t, l2, v => by
      show (match stepAppend et v op with
        | .ok w => runAppendsFrom et w (t ++ l2)
        | .error f => (.error f : Except (Fault α) (Vector α))) =
        (match (match stepAppend et v op with
          | .ok w => runAppendsFrom et w t
          | .error f => (.error f : Except (Fault α) (Vector α))) with
        | .ok w => runAppendsFrom et w l2
        | .error f => (.error f : Except (Fault α) (Vector α)))
      cases hs : stepAppend et v op with
      | ok w => exact runAppendsFrom_append t l2 w
      | error f => rfl

/-- A power of two in `[n, 2n)` is the least power of two that is `≥ n`. -/
theorem capInv_isLeast {n c : Nat} (hpow : ∃ k, c = 2 ^ k)
    (hle : n ≤ c) (hlt : c < 2 * n) :
    IsLeast {m | (∃ k, m = 2 ^ k) ∧ n ≤ m} c := by
  constructor
  · exact ⟨hpow, hle⟩
  · rintro m ⟨⟨k, rfl⟩, hm⟩
    obtain ⟨j, rfl⟩ := hpow
    by_contra hcm
    push_neg at hcm
    have hkj : k < j := (Nat.pow_lt_pow_iff_right (by norm_num)).mp hcm
    have h2 : (2 : Nat) ^ k ≤ 2 ^ (j - 1) := Nat.pow_le_pow_right (by norm_num) (by omega)
    have hsplit : (2 : Nat) ^ j = 2 * 2 ^ (j - 1) := by
      conv_lhs => rw [show j = (j - 1) + 1 by omega]
      rw [pow_succ]
      ring
    omega


/-- Equal prefixes of equal length have equal takes. -/
theorem take_eq_of_getElem? {b u : Block α} {s : Nat}
    (h : ∀ j, j < s → b[j]? = u[j]?) : b.take s = u.take s := by
  apply List.ext_getElem?
  intro nn
  rcases Nat.lt_or_ge nn s with hn | hn
  · rw [List.getElem?_take_of_lt hn, List.getElem?_take_of_lt hn, h nn hn]
  · rw [List.getElem?_eq_none (by rw [List.length_take]; omega),
      List.getElem?_eq_none (by rw [List.length_take]; omega)]

/-- A non-throwing copy-assignment into a live slot succeeds. -/
theorem copyAssignAt_ok {et : ElemType α} {b : Block α} {i : Nat} {a o : α}
    (hfc : et.failCopy a = false) (hb : b[i]? = some (some o)) :
    copyAssignAt et b i a = .ok (b.set i (some a)) := by
  unfold copyAssignAt
  rw [hfc]
  simp only [Bool.false_eq_true, if_false, hb]

/-- The assignment loop of the copy assignment operator succeeds on live
ranges and copies the source values over. -/
theorem assignFromN_ok {et : ElemType α} (hc : ∀ a, et.failCopy a = false) :
    ∀ (n : Nat) (b src : Block α) (i : Nat),
      (∀ j, j < n → ∃ a, src[i + j]? = some (some a)) →
      (∀ j, j < n → ∃ o, b[i + j]? = some (some o)) →
      ∃ b', assignFromN et b src i n = .ok b' ∧ b'.length = b.length ∧
        (∀ j, j < n → b'[i + j]? = src[i + j]?) ∧
        (∀ k, k < i ∨ i + n ≤ k → b'[k]? = b[k]?)
  | 0, b, src, i, _, _ =>
      ⟨b, rfl, rfl, fun j hj => absurd hj (Nat.not_lt_zero j), fun _ _ => rfl⟩
  | n + 1, b, src, i, hsrc, hdst => by
      obtain ⟨a, ha⟩ := hsrc 0 (Nat.succ_pos n)
      rw [Nat.add_zero] at ha
      obtain ⟨o, ho⟩ := hdst 0 (Nat.succ_pos n)
      rw [Nat.add_zero] at ho
      have hi : i < b.length := lt_length_of_getElem? ho
      have hstep := copyAssignAt_ok (hc a) ho
      obtain ⟨b', hok, hlen, hin, hout⟩ := assignFromN_ok hc n (b.set i (some a)) src (i + 1)
        (fun j hj => by
          obtain ⟨x, hx⟩ := hsrc (j + 1) (Nat.succ_lt_succ hj)
          rw [show i + (j + 1) = i + 1 + j by omega] at hx
          exact ⟨x, hx⟩)
        (fun j hj => by
          obtain ⟨x, hx⟩ := hdst (j + 1) (Nat.succ_lt_succ hj)
          rw [show i + (j + 1) = i + 1 + j by omega] at hx
          rw [List.getElem?_set_ne (by omega)]
          exact ⟨x, hx⟩)
      refine ⟨b', ?_, by simp [hlen], ?_, ?_⟩
      · unfold assignFromN
        rw [ha]
        simp only [hstep, hok]
      · intro j hj
        cases j with
        | zero =>
          rw [Nat.add_zero, hout i (Or.inl (Nat.lt_succ_self i)),
            List.getElem?_set_self hi, ha]
        | succ j' =>
          have := hin j' (Nat.lt_of_succ_lt_succ hj)
          rw [show i + 1 + j' = i + (j' + 1) by omega] at this
          exact this
      · intro k hk
        rw [hout k (by omega), List.getElem?_set_ne (by omega)]

/-- The raw construction loop of the copy assignment operator succeeds on a
live source range and a free destination range. -/
theorem constructFromN_ok {et : ElemType α} (hc : ∀ a, et.failCopy a = false) :
    ∀ (n : Nat) (b src : Block α) (i : Nat),
      (∀ j, j < n → ∃ a, src[i + j]? = some (some a)) →
      (∀ j, j < n → b[i + j]? = some none) →
      ∃ b', constructFromN et b src i n = .ok b' ∧ b'.length = b.length ∧
        (∀ j, j < n → b'[i + j]? = src[i + j]?) ∧
        (∀ k, k < i ∨ i + n ≤ k → b'[k]? = b[k]?)
  | 0, b, src, i, _, _ =>
      ⟨b, rfl, rfl, fun j hj => absurd hj (Nat.not_lt_zero j), fun _ _ => rfl⟩
  | n + 1, b, src, i, hsrc, hdst => by
      obtain ⟨a, ha⟩ := hsrc 0 (Nat.succ_pos n)
      rw [Nat.add_zero] at ha
      have ho := hdst 0 (Nat.succ_pos n)
      rw [Nat.add_zero] at ho
      have hi : i < b.length := lt_length_of_getElem? ho
      have hstep := @constructAt_ok_free _ et _ _ a ho
      obtain ⟨b', hok, hlen, hin, hout⟩ := constructFromN_ok hc n (b.set i (some a)) src (i + 1)
        (fun j hj => by
          obtain ⟨x, hx⟩ := hsrc (j + 1) (Nat.succ_lt_succ hj)
          rw [show i + (j + 1) = i + 1 + j by omega] at hx
          exact ⟨x, hx⟩)
        (fun j hj => by
          have hx := hdst (j + 1) (Nat.succ_lt_succ hj)
          rw [show i + (j + 1) = i + 1 + j by omega] at hx
          rw [List.getElem?_set_ne (by omega)]
          exact hx)
      refine ⟨b', ?_, by simp [hlen], ?_, ?_⟩
      · unfold constructFromN
        rw [ha]
        simp only [show copyCtorVal et a = .ok a by unfold copyCtorVal; rw [hc a]; rfl,
          hstep, hok]
      · intro j hj
        cases j with
        | zero =>
          rw [Nat.add_zero, hout i (Or.inl (Nat.lt_succ_self i)),
            List.getElem?_set_self hi, ha]
        | succ j' =>
          have := hin j' (Nat.lt_of_succ_lt_succ hj)
          rw [show i + 1 + j' = i + (j' + 1) by omega] at this
          exact this
      · intro k hk
        rw [hout k (by omega), List.getElem?_set_ne (by omega)]

/-- Running `DestroyN` over live slots succeeds and leaves everything outside the
range untouched, for either destructor kind. -/
theorem destroyN_ok_out (et : ElemType α) :
    ∀ (n : Nat) (b : Block α) (i : Nat),
      (∀ j, j < n → ∃ a, b[i + j]? = some (some a)) →
      ∃ b', destroyN et b i n = .ok b' ∧ b'.length = b.length ∧
        (∀ k, k < i ∨ i + n ≤ k → b'[k]? = b[k]?)
  | 0, b, i, _ => ⟨b, rfl, rfl, fun _ _ => rfl⟩
  | n + 1, b, i, h => by
      obtain ⟨a, ha⟩ := h 0 (Nat.succ_pos n)
      rw [Nat.add_zero] at ha
      have hd := destroyAt_ok_live et ha
      by_cases ht : et.trivialDtor
      · rw [if_pos ht] at hd
        obtain ⟨b', hok, hlen, hout⟩ := destroyN_ok_out et n b (i + 1) (fun j hj => by
          have := h (j + 1) (Nat.succ_lt_succ hj)
          rw [show i + (j + 1) = i + 1 + j by omega] at this
          exact this)
        exact ⟨b', by unfold destroyN; rw [hd]; exact hok, hlen,
          fun k hk => hout k (by omega)⟩
      · rw [if_neg ht] at hd
        obtain ⟨b', hok, hlen, hout⟩ := destroyN_ok_out et n (b.set i none) (i + 1)
          (fun j hj => by
            have hj' := h (j + 1) (Nat.succ_lt_succ hj)
            rw [show i + (j + 1) = i + 1 + j by omega] at hj'
            rw [List.getElem?_set_ne (by omega)]
            exact hj')
        refine ⟨b', by unfold destroyN; rw [hd]; exact hok, by simp [hlen], ?_⟩
        intro k hk
        rw [hout k (by omega), List.getElem?_set_ne (by omega)]

/-- Success and characterization of the copy constructor: exact-capacity
allocation, equal element values. -/
theorem CopyCtor_ok {et : ElemType α} (hc : ∀ a, et.failCopy a = false)
    {other : Vector α} (hwf : WF other) :
    ∃ w, CopyCtor et other = .ok w ∧ w.size_ = other.size_ ∧
      w.Capacity = other.size_ ∧ w.elems = other.elems := by
  obtain ⟨d, hd⟩ := uCopyN_ok_ex other.size_ other.data_.buffer 0
    (List.replicate other.size_ none) 0
    (fun j hj => by
      rw [Nat.zero_add]
      obtain ⟨a, ha⟩ := WF_live hwf hj
      exact ⟨a, ha, hc a⟩)
    (fun j hj => by rw [Nat.zero_add, List.getElem?_replicate, if_pos hj])
  obtain ⟨hlen, hin, hout⟩ := uCopyN_ok_char hd
  refine ⟨⟨⟨d⟩, other.size_⟩, ?_, rfl, ?_, ?_⟩
  · unfold CopyCtor
    dsimp only
    simp only [hd]
  · show d.length = other.size_
    rw [hlen, List.length_replicate]
  · show d.take other.size_ = other.data_.buffer.take other.size_
    apply take_eq_of_getElem?
    intro j hj
    obtain ⟨a, h1, h2, h3⟩ := hin j hj
    rw [Nat.zero_add] at h1 h3
    rw [h1, h3]

/-- Success and characterization of the copy assignment operator: the target
ends with the source size and element values. -/
theorem CopyAssign_ok {et : ElemType α} (hc : ∀ a, et.failCopy a = false)
    {v other : Vector α} (hwfv : WF v) (hwfo : WF other) :
    ∃ w, CopyAssign et v other = .ok w ∧ w.size_ = other.size_ ∧
      w.elems = other.elems := by
  by_cases hgt : other.size_ > v.data_.Capacity
  · obtain ⟨w, hcc, hsz, hcap, helems⟩ := CopyCtor_ok hc hwfo
    refine ⟨w, ?_, hsz, helems⟩
    unfold CopyAssign
    rw [if_pos hgt]
    simp only [hcc]
  · have hfit : other.size_ ≤ v.data_.Capacity := Nat.le_of_not_lt hgt
    have hcapv : v.size_ ≤ v.data_.buffer.length := hwfv.1
    obtain ⟨b1, ha_ok, ha_len, ha_in, ha_out⟩ := assignFromN_ok hc
      (min v.size_ other.size_) v.data_.buffer other.data_.buffer 0
      (fun j hj => by rw [Nat.zero_add]; exact WF_live hwfo (by omega))
      (fun j hj => by rw [Nat.zero_add]; exact WF_live hwfv (by omega))
    simp only [Nat.zero_add] at ha_in ha_out
    obtain ⟨b2, hb_ok, hb_len, hb_in, hb_out⟩ := constructFromN_ok hc
      (other.size_ - min v.size_ other.size_) b1 other.data_.buffer
      (min v.size_ other.size_)
      (fun j hj => WF_live hwfo (by omega))
      (fun j hj => by
        have hmn : min v.size_ other.size_ = v.size_ := by omega
        rw [ha_out (min v.size_ other.size_ + j) (Or.inr (by omega)), hmn]
        exact hwfv.2.2 (v.size_ + j) (by omega) (by
          show v.size_ + j < v.data_.Capacity
          omega))
    rcases Nat.lt_or_ge other.size_ v.size_ with hlt | hge
    · -- source shorter: excess slots are destroyed
      have hmn : min v.size_ other.size_ = other.size_ := by omega
      obtain ⟨b3, hdes, hdlen, hdout⟩ := destroyN_ok_out et (v.size_ - other.size_) b2
        other.size_
        (fun j hj => by
          rw [hb_out (other.size_ + j) (Or.inr (by omega)),
            ha_out (other.size_ + j) (Or.inr (by omega))]
          exact WF_live hwfv (by omega))
      refine ⟨⟨⟨b3⟩, other.size_⟩, ?_, rfl, ?_⟩
      · unfold CopyAssign
        rw [if_neg hgt]
        dsimp only
        simp only [ha_ok, hb_ok]
        rw [if_pos hlt]
        simp only [hdes]
      · show b3.take other.size_ = other.data_.buffer.take other.size_
        apply take_eq_of_getElem?
        intro j hj
        rw [hdout j (Or.inl hj), hb_out j (Or.inl (by omega)), ha_in j (by omega)]
    · -- source at least as long: no destruction
      refine ⟨⟨⟨b2⟩, other.size_⟩, ?_, rfl, ?_⟩
      · unfold CopyAssign
        rw [if_neg hgt]
        dsimp only
        simp only [ha_ok, hb_ok]
        rw [if_neg (by omega)]
      · show b2.take other.size_ = other.data_.buffer.take other.size_
        apply take_eq_of_getElem?
        intro j hj
        have hmn : min v.size_ other.size_ = v.size_ := by omega
        rcases Nat.lt_or_ge j v.size_ with hjv | hjv
        · rw [hb_out j (Or.inl (by omega)), ha_in j (by omega)]
        · have := hb_in (j - min v.size_ other.size_) (by omega)
          rw [show min v.size_ other.size_ + (j - min v.size_ other.size_) = j
            by omega] at this
          exact this

/-! ## Claim theorems -/

/-- C1: the claim says `Insert(pos, V)` works for every `pos` in
`[begin, end]`, including `end` and including a size-0 container with spare
capacity.  It does not: the spare-capacity path of both `Insert` overloads
(unlike `Emplace`, which special-cases `pos == end`) unconditionally
move-constructs from `data_[size_ - 1]` and runs
`std::move_backward(begin() + pos_idx, end() - 1, end())`; at `pos == end`
that range is invalid (`first == last + 1`), and at `size_ == 0` the index
`size_ - 1` underflows.  Evaluated here on `[10, 20]` with capacity 4
inserting 30 at `end`, and on an empty container of capacity 2. -/
theorem C1_insert_at_end_faults :
    InsertCopy genOps ⟨⟨[some 10, some 20, none, none]⟩, 2⟩ 2 30 =
      .error (.ub "move_backward: invalid range") ∧
    InsertCopy genOps ⟨⟨[none, none]⟩, 0⟩ 0 30 =
      .error (.ub "Insert: index size_ - 1 underflows on an empty container") := by
  constructor <;> rfl

/-- C3: the claimed invariant (live elements exactly below `size_`) is
broken by `Erase`: the source destroys the element at `pos` first and only
then shifts `[pos + 1, end)` left by move-assignment, so the first shift
assigns into the slot whose object was just destroyed (undefined behavior
for a non-trivially-destructible element type), and the former last slot is
left constructed above the new size.  Evaluated on a reachable state: a
vector holding `[1, 2]`, erasing position 0. -/
theorem C3_erase_breaks_lifetime_discipline :
    Erase genOps ⟨⟨[some 1, some 2]⟩, 2⟩ 0 =
      .error (.ub "moveAssignFromSlot: assigning into a dead slot") := rfl

/-- C6: the claim says a growing `Reserve` destroys exactly the old live
elements after the commit swap.  The source instead executes
`DestroyN(new_data.GetAddress(), new_data.Capacity())`, destroying a full
old-capacity worth of slots; when `size_ < capacity` this runs destructors
on uninitialized memory.  Evaluated on a reachable state: size 1,
capacity 2 (two appends then one `PopBack`), then `Reserve(3)`. -/
theorem C6_reserve_destroys_nonlive_slots :
    Reserve genOps ⟨⟨[some 7, none]⟩, 1⟩ 3 =
      .error (.ub "destroyAt: destroying a slot with no live object") := rfl

/-- C2, counterexample: for a non-copyable element type whose move
constructor can throw, the source still relocates by move
(`!is_copy_constructible`), and a throw during a capacity-triggered growth
leaves the already-moved sources holding their moved-from residues: the
exception propagates (with the new block fully unwound) but the element
values after the call differ from before, contradicting the claimed strong
guarantee as stated.  Concretely: a full vector `[1, 2]` of `badMoveOps`
elements, `PushBack(5)`; moving element 2 throws; element 1 is left as its
residue 0. -/
theorem C2_throwing_move_damages_values :
    PushBackMove badMoveOps ⟨⟨[some 1, some 2]⟩, 2⟩ 5 =
      .error (.ex ⟨⟨[some 0, some 2]⟩, 2⟩ [none, none, none, none]) ∧
    (⟨⟨[some 0, some 2]⟩, 2⟩ : Vector Int) ≠ ⟨⟨[some 1, some 2]⟩, 2⟩ := by
  constructor
  · rfl
  · decide

/-- C5, counterexample: the claim says `PushBack` (like `EmplaceBack`)
returns a reference to the newly added element.  The C++ signature of both
`PushBack` overloads is `void PushBack(...)`: no reference is returned.  In
the model the designated index of the returned reference is the second
component of the result; for `PushBack` it is `none` (void), where the claim
requires a reference designating the new element at index `size - 1 = 0`. -/
theorem C5_pushback_returns_void :
    PushBackCopy genOps (vecEmpty) 5 = .ok (⟨⟨[some 5]⟩, 1⟩, none) ∧
    (none : Option Nat) ≠ some 0 := by
  constructor
  · rfl
  · decide

/-- C8: the concrete int scenario of the spec, executed in the
trivially-destructible element semantics of int.  Three appends give size 3,
capacity 4, contents `[1, 2, 3]`; `Insert(begin() + 1, 99)` gives
`[1, 99, 2, 3]` with the returned iterator at index 1; `Erase(begin())`
gives contents `[99, 2, 3]`, size 3, and returns an iterator to index 0,
where the element formerly after the erased one (99) now lives. -/
theorem C8_concrete_scenario :
    PushBackMove intOps (vecEmpty) 1 = .ok (⟨⟨[some 1]⟩, 1⟩, none) ∧
    PushBackMove intOps ⟨⟨[some 1]⟩, 1⟩ 2 = .ok (⟨⟨[some 1, some 2]⟩, 2⟩, none) ∧
    PushBackMove intOps ⟨⟨[some 1, some 2]⟩, 2⟩ 3 =
      .ok (⟨⟨[some 1, some 2, some 3, none]⟩, 3⟩, none) ∧
    (⟨⟨[some 1, some 2, some 3, none]⟩, 3⟩ : Vector Int).Size = 3 ∧
    (⟨⟨[some 1, some 2, some 3, none]⟩, 3⟩ : Vector Int).Capacity = 4 ∧
    (⟨⟨[some 1, some 2, some 3, none]⟩, 3⟩ : Vector Int).elems =
      [some 1, some 2, some 3] ∧
    InsertMove intOps ⟨⟨[some 1, some 2, some 3, none]⟩, 3⟩ 1 99 =
      .ok (⟨⟨[some 1, some 99, some 2, some 3]⟩, 4⟩, 1) ∧
    (⟨⟨[some 1, some 99, some 2, some 3]⟩, 4⟩ : Vector Int).elems =
      [some 1, some 99, some 2, some 3] ∧
    Erase intOps ⟨⟨[some 1, some 99, some 2, some 3]⟩, 4⟩ 0 =
      .ok (⟨⟨[some 99, some 2, some 3, some 3]⟩, 3⟩, 0) ∧
    (⟨⟨[some 99, some 2, some 3, some 3]⟩, 3⟩ : Vector Int).Size = 3 ∧
    (⟨⟨[some 99, some 2, some 3, some 3]⟩, 3⟩ : Vector Int).elems =
      [some 99, some 2, some 3] ∧
    (⟨⟨[some 99, some 2, some 3, some 3]⟩, 3⟩ : Vector Int).data_.buffer[0]? =
      some (some 99) := by
  refine ⟨rfl, rfl, rfl, rfl, rfl, rfl, rfl, rfl, rfl, rfl, rfl, rfl⟩

/-- C2 (amended): strong exception safety on growth.  For every vector, if
an element constructor throws before the commit swap of a growth operation
(modelled by the operation returning an in-flight exception `.ex st blk`),
the container state `st` at propagation equals the state before the call and
the partially filled new block `blk` has been completely unwound.  The
appends and inserts are capacity-triggered, so those conjuncts are stated
under `size_ = Capacity`; the `Reserve` conjunct holds for every vector,
with or without spare capacity.  All of it provided the element type is
copyable or its move constructor never throws (`h2`), the C++ fact that a
noexcept move cannot throw (`h1`), and a non-trivially-destructible element
type so that unwinding is observable (`h0`). -/
theorem C2_growth_strong_guarantee {et : ElemType α} (h0 : et.trivialDtor = false)
    (h1 : et.nothrowMove = true → ∀ a, et.failMove a = false)
    (h2 : et.copyable = true ∨ ∀ a, et.failMove a = false)
    (v : Vector α) :
    (v.size_ = v.Capacity →
      (∀ value st blk, PushBackCopy et v value = .error (.ex st blk) →
        st = v ∧ AllNone blk) ∧
      (∀ value st blk, PushBackMove et v value = .error (.ex st blk) →
        st = v ∧ AllNone blk) ∧
      (∀ mk st blk, EmplaceBack et v mk = .error (.ex st blk) →
        st = v ∧ AllNone blk) ∧
      (∀ pos value st blk, InsertCopy et v pos value = .error (.ex st blk) →
        st = v ∧ AllNone blk) ∧
      (∀ pos value st blk, InsertMove et v pos value = .error (.ex st blk) →
        st = v ∧ AllNone blk) ∧
      (∀ pos mk st blk, Emplace et v pos mk = .error (.ex st blk) →
        st = v ∧ AllNone blk)) ∧
    (∀ n st blk, Reserve et v n = .error (.ex st blk) →
      st = v ∧ AllNone blk) := by
  refine ⟨fun hcap => ?_, fun n st blk hex => reserveEx h1 h2 v n hex⟩
  have hcap' : v.size_ = v.data_.Capacity := hcap
  refine ⟨?_, ?_, ?_, ?_, ?_, ?_⟩
  · intro value st blk hex
    exact pushBackCopy_ex h0 h1 h2 hcap' hex
  · intro value st blk hex
    exact pushBackMove_ex h0 h1 h2 hcap' hex
  · intro mk st blk hex
    exact emplaceBack_ex h0 h1 h2 hcap' hex
  · intro pos value st blk hex
    unfold InsertCopy at hex
    split at hex
    · exact insertGrow_ex h0 h1 h2 hex
    · rename_i hne
      exact absurd hcap' hne
  · intro pos value st blk hex
    unfold InsertMove at hex
    split at hex
    · exact insertGrow_ex h0 h1 h2 hex
    · rename_i hne
      exact absurd hcap' hne
  · intro pos mk st blk hex
    unfold Emplace at hex
    split at hex
    · exact insertGrow_ex h0 h1 h2 hex
    · rename_i hne
      exact absurd hcap' hne

/-- Witness for C2 at concrete inputs with `throwCopyOps` (a copyable element
type whose copy constructor throws on the value 2, relocation therefore by
copy).  First, on the full vector `[1, 2]`, `PushBack(5)` throws during
relocation and the exception escapes with the container unchanged and the
new block unwound.  Second, on the vector `[2]` with spare capacity 2, the
growing `Reserve(3)` likewise throws during relocation and leaves the
container unchanged with the new block unwound. -/
theorem C2_growth_strong_guarantee_witness :
    throwCopyOps.trivialDtor = false ∧
    (throwCopyOps.nothrowMove = true → ∀ a, throwCopyOps.failMove a = false) ∧
    (throwCopyOps.copyable = true ∨ ∀ a, throwCopyOps.failMove a = false) ∧
    (⟨⟨[some 1, some 2]⟩, 2⟩ : Vector Int).size_ =
      (⟨⟨[some 1, some 2]⟩, 2⟩ : Vector Int).Capacity ∧
    ((⟨⟨[some 1, some 2]⟩, 2⟩ : Vector Int) = ⟨⟨[some 1, some 2]⟩, 2⟩ ∧
      AllNone ([none, none, none, none] : Block Int)) ∧
    ((⟨⟨[some 2, none]⟩, 1⟩ : Vector Int) = ⟨⟨[some 2, none]⟩, 1⟩ ∧
      AllNone ([none, none, none] : Block Int)) :=
  ⟨rfl, fun h => absurd h (by decide), Or.inl rfl, rfl,
    ((@C2_growth_strong_guarantee Int throwCopyOps rfl (fun h => absurd h (by decide))
      (Or.inl rfl) (⟨⟨[some 1, some 2]⟩, 2⟩ : Vector Int)).1 rfl).1 5
      ⟨⟨[some 1, some 2]⟩, 2⟩ ([none, none, none, none] : Block Int) rfl,
    (@C2_growth_strong_guarantee Int throwCopyOps rfl (fun h => absurd h (by decide))
      (Or.inl rfl) (⟨⟨[some 2, none]⟩, 1⟩ : Vector Int)).2 3
      ⟨⟨[some 2, none]⟩, 1⟩ ([none, none, none] : Block Int) rfl⟩

/-- C9: `Resize(n)` immediately followed by `Resize(n)` is a no-op: after a
successful first call the container has `size_ = n`, so the second call takes
the early-return branch, performing no element construction or destruction
and returning the state unchanged. -/
theorem C9_resize_idempotent {et : ElemType α} (v : Vector α) (n : Nat) (v' : Vector α)
    (h : Resize et v n = .ok v') : Resize et v' n = .ok v' ∧ v'.size_ = n := by
  have hs := Resize_ok_size h
  constructor
  · unfold Resize
    rw [if_pos hs]
  · exact hs

/-- Witness for C9 at a concrete input: growing an empty vector to size 2
(two value-constructed elements), then resizing to 2 again. -/
theorem C9_resize_idempotent_witness :
    Resize genOps (vecEmpty) 2 = .ok (⟨⟨[some 0, some 0]⟩, 2⟩ : Vector Int) ∧
    (Resize genOps (⟨⟨[some 0, some 0]⟩, 2⟩ : Vector Int) 2 =
      .ok ⟨⟨[some 0, some 0]⟩, 2⟩ ∧
     (⟨⟨[some 0, some 0]⟩, 2⟩ : Vector Int).size_ = 2) :=
  ⟨rfl, C9_resize_idempotent (vecEmpty) 2 ⟨⟨[some 0, some 0]⟩, 2⟩ rfl⟩

/-- C10: no single-container shrinking mutation releases storage: on a
well-formed vector, `PopBack` (non-empty), `Resize(n)` with `n <= size_`,
and `Erase` all leave the capacity exactly unchanged.  For `Erase` the
capacity is preserved whenever the call completes, and for a trivially
destructible element type it completes at every valid position. -/
theorem C10_shrinking_keeps_capacity {et : ElemType α} (v : Vector α)
    (hwf : WF v) (hm : ∀ a, et.failMove a = false) :
    (0 < v.size_ → ∃ w, PopBack et v = .ok w ∧ w.Capacity = v.Capacity) ∧
    (∀ n, n ≤ v.size_ → ∃ w, Resize et v n = .ok w ∧ w.Capacity = v.Capacity) ∧
    (∀ pos w r, Erase et v pos = .ok (w, r) → w.Capacity = v.Capacity) ∧
    (et.trivialDtor = true → ∀ pos, pos < v.size_ →
      ∃ w r, Erase et v pos = .ok (w, r) ∧ w.Capacity = v.Capacity) := by
  refine ⟨?_, ?_, ?_, ?_⟩
  · intro hs
    obtain ⟨a, ha⟩ := WF_live hwf (show v.size_ - 1 < v.size_ by omega)
    have hd := destroyAt_ok_live et ha
    refine ⟨⟨⟨if et.trivialDtor then v.data_.buffer else v.data_.buffer.set (v.size_ - 1) none⟩,
      v.size_ - 1⟩, ?_, ?_⟩
    · unfold PopBack
      rw [if_neg (by omega)]
      rw [hd]
    · show (if et.trivialDtor then v.data_.buffer
          else v.data_.buffer.set (v.size_ - 1) none).length = v.data_.buffer.length
      split <;> simp
  · intro n hn
    rcases eq_or_ne v.size_ n with hsz | hsz
    · refine ⟨v, ?_, rfl⟩
      unfold Resize
      rw [if_pos hsz]
    · obtain ⟨b, hb⟩ := destroyN_ok_live et (v.size_ - n) v.data_.buffer n
        (fun j hj => WF_live hwf (by omega))
      refine ⟨⟨⟨b⟩, n⟩, ?_, ?_⟩
      · unfold Resize
        rw [if_neg hsz, if_neg (by omega)]
        rw [hb]
      · show b.length = v.data_.buffer.length
        exact destroyN_length hb
  · intro pos w r h
    unfold Erase at h
    split at h
    · simp at h
    · rename_i b heqd
      split at h
      · simp at h
      · simp at h
      · rename_i b2 heq2
        injection h with h
        injection h with hw hr
        subst hw
        show b2.length = v.data_.buffer.length
        exact (moveForwardN_length heq2).trans (destroyAt_length heqd)
  · intro ht pos hpos
    obtain ⟨a, ha⟩ := WF_live hwf hpos
    have hd : destroyAt et v.data_.buffer pos = .ok v.data_.buffer := by
      have := destroyAt_ok_live et ha
      rw [ht] at this
      simpa using this
    obtain ⟨b2, hb2⟩ := mfGo_triv_ok ht hm (v.size_ - (pos + 1)) v.data_.buffer
      (pos + 1) pos
      (fun j hj => WF_live hwf (by omega))
      (fun j hj => by
        have hlen : v.size_ ≤ v.data_.buffer.length := hwf.1
        show pos + j < v.data_.buffer.length
        omega)
      (by omega)
    have hmf : moveForwardN et v.data_.buffer (pos + 1) v.size_ pos = .ok b2 := by
      unfold moveForwardN
      rw [if_neg (by omega)]
      exact hb2
    refine ⟨⟨⟨b2⟩, v.size_ - 1⟩, pos, ?_, ?_⟩
    · unfold Erase
      simp only [hd, hmf]
    · show b2.length = v.data_.buffer.length
      exact mfGo_length hb2

/-- Witness for C10 at a concrete input: a vector holding `[5, 6]` of a
non-trivial element type, and the same data for int. -/
theorem C10_shrinking_keeps_capacity_witness :
    WF (⟨⟨[some 5, some 6]⟩, 2⟩ : Vector Int) ∧
    (∀ a : Int, genOps.failMove a = false) ∧
    ((0 < (2 : Nat) → ∃ w, PopBack genOps (⟨⟨[some 5, some 6]⟩, 2⟩ : Vector Int) = .ok w ∧
        w.Capacity = (⟨⟨[some 5, some 6]⟩, 2⟩ : Vector Int).Capacity) ∧
     (∀ n, n ≤ (2 : Nat) → ∃ w, Resize genOps (⟨⟨[some 5, some 6]⟩, 2⟩ : Vector Int) n = .ok w ∧
        w.Capacity = (⟨⟨[some 5, some 6]⟩, 2⟩ : Vector Int).Capacity) ∧
     (∀ pos w r, Erase genOps (⟨⟨[some 5, some 6]⟩, 2⟩ : Vector Int) pos = .ok (w, r) →
        w.Capacity = (⟨⟨[some 5, some 6]⟩, 2⟩ : Vector Int).Capacity) ∧
     (genOps.trivialDtor = true → ∀ pos, pos < (2 : Nat) →
        ∃ w r, Erase genOps (⟨⟨[some 5, some 6]⟩, 2⟩ : Vector Int) pos = .ok (w, r) ∧
          w.Capacity = (⟨⟨[some 5, some 6]⟩, 2⟩ : Vector Int).Capacity)) :=
  ⟨by decide, fun a => rfl,
    C10_shrinking_keeps_capacity (⟨⟨[some 5, some 6]⟩, 2⟩ : Vector Int)
      (by decide) (fun a => rfl)⟩

/-- C4: starting from a default-constructed vector, any nonempty sequence of
appends (either `PushBack` overload or `EmplaceBack`) succeeds and leaves the
capacity at exactly the least power of two at least the number of appends
(so the capacity sequence is 1, 2, 4, 8, ...); the empty sequence leaves
capacity 0; and one more append never decreases the capacity. -/
theorem C4_growth_doubling {et : ElemType α}
    (hc : ∀ a, et.failCopy a = false) (hm : ∀ a, et.failMove a = false)
    (l : List (AppendOp α)) :
    ∃ v, runAppends et l = .ok v ∧ v.size_ = l.length ∧
      (l = [] → v.Capacity = 0) ∧
      (l ≠ [] → IsLeast {m | (∃ k, m = 2 ^ k) ∧ l.length ≤ m} v.Capacity) ∧
      (∀ op, ∃ w, runAppends et (l ++ [op]) = .ok w ∧ v.Capacity ≤ w.Capacity) := by
  have hbase : CapInv 0 (vecEmpty : Vector α) :=
    ⟨rfl, ⟨Nat.le_refl 0, fun i hi => absurd hi (Nat.not_lt_zero i),
      fun i hi1 hi2 => absurd hi2 (Nat.not_lt_zero i)⟩, fun _ => rfl,
      fun h => absurd h (by omega)⟩
  obtain ⟨v, hrun, hinv, _⟩ := runAppendsFrom_inv hc hm l hbase
  rw [Nat.zero_add] at hinv
  obtain ⟨hsz, hwf, hz, hp⟩ := hinv
  refine ⟨v, hrun, hsz, ?_, ?_, ?_⟩
  · intro hnil
    subst hnil
    exact hz rfl
  · intro hne
    have hn1 : 1 ≤ l.length := by
      cases l with
      | nil => exact absurd rfl hne
      | cons x t => simp
    obtain ⟨hpow, hle, hlt⟩ := hp hn1
    exact capInv_isLeast hpow hle hlt
  · intro op
    obtain ⟨w1, hs, hinv1, hcap1⟩ := stepAppend_inv hc hm ⟨hsz, hwf, hz, hp⟩ op
    refine ⟨w1, ?_, hcap1⟩
    unfold runAppends
    rw [runAppendsFrom_append]
    show (match runAppendsFrom et (vecEmpty) l with
      | .ok w => runAppendsFrom et w [op]
      | .error f => .error f) = .ok w1
    rw [hrun]
    show runAppendsFrom et v [op] = .ok w1
    unfold runAppendsFrom
    rw [hs]
    rfl

/-- Witness for C4: three appends of 1, 2, 3 with a well-behaved element
type; the resulting capacity is 4, the least power of two at least 3. -/
theorem C4_growth_doubling_witness :
    (∀ a : Int, genOps.failCopy a = false) ∧ (∀ a : Int, genOps.failMove a = false) ∧
    (∃ v, runAppends genOps [AppendOp.push (1 : Int), AppendOp.push 2, AppendOp.push 3] =
        .ok v ∧
      v.size_ = [AppendOp.push (1 : Int), AppendOp.push 2, AppendOp.push 3].length ∧
      ([AppendOp.push (1 : Int), AppendOp.push 2, AppendOp.push 3] = [] → v.Capacity = 0) ∧
      ([AppendOp.push (1 : Int), AppendOp.push 2, AppendOp.push 3] ≠ [] →
        IsLeast {m | (∃ k, m = 2 ^ k) ∧
          [AppendOp.push (1 : Int), AppendOp.push 2, AppendOp.push 3].length ≤ m} v.Capacity) ∧
      (∀ op, ∃ w, runAppends genOps
          ([AppendOp.push (1 : Int), AppendOp.push 2, AppendOp.push 3] ++ [op]) = .ok w ∧
        v.Capacity ≤ w.Capacity)) :=
  ⟨fun _ => rfl, fun _ => rfl,
    C4_growth_doubling (fun _ => rfl) (fun _ => rfl)
      [AppendOp.push (1 : Int), AppendOp.push 2, AppendOp.push 3]⟩


/-- C5 (amended): `EmplaceBack` returns a reference to the newly added
element - the returned reference designates index `size_ - 1` of the new
state, which holds the constructed value; both `PushBack` overloads place
their new element at that same index but return void (no reference,
modelled as `none`). -/
theorem C5_returned_reference {et : ElemType α}
    (hc : ∀ a, et.failCopy a = false) (hm : ∀ a, et.failMove a = false)
    (v : Vector α) (hwf : WF v) (a : α) :
    (∃ w r, EmplaceBack et v (.ok a) = .ok (w, r) ∧ r = some (w.size_ - 1) ∧
      w.size_ = v.size_ + 1 ∧ w.data_.buffer[w.size_ - 1]? = some (some a)) ∧
    (∃ w r, PushBackCopy et v a = .ok (w, r) ∧ r = none ∧
      w.size_ = v.size_ + 1 ∧ w.data_.buffer[w.size_ - 1]? = some (some a)) ∧
    (∃ w r, PushBackMove et v a = .ok (w, r) ∧ r = none ∧
      w.size_ = v.size_ + 1 ∧ w.data_.buffer[w.size_ - 1]? = some (some a)) := by
  refine ⟨?_, ?_, ?_⟩
  · obtain ⟨b, hpb, hlen, hin, hat, habove⟩ := emplaceBack_ok hc hm hwf a
    exact ⟨⟨⟨b⟩, v.size_ + 1⟩, some v.size_, hpb, rfl, rfl, by simpa using hat⟩
  · obtain ⟨b, hpb, hlen, hin, hat, habove⟩ := pushBackCopy_ok hc hm hwf a
    exact ⟨⟨⟨b⟩, v.size_ + 1⟩, none, hpb, rfl, rfl, by simpa using hat⟩
  · obtain ⟨b, hpb, hlen, hin, hat, habove⟩ := pushBackCopy_ok hc hm hwf a
    exact ⟨⟨⟨b⟩, v.size_ + 1⟩, none, by rw [pushBackMove_eq hc hm]; exact hpb, rfl, rfl,
      by simpa using hat⟩

/-- Witness for C5 at a concrete input: an empty vector of a well-behaved
element type, appending the value 7. -/
theorem C5_returned_reference_witness :
    (∀ a : Int, genOps.failCopy a = false) ∧ (∀ a : Int, genOps.failMove a = false) ∧
    WF (vecEmpty : Vector Int) ∧
    ((∃ w r, EmplaceBack genOps (vecEmpty : Vector Int) (.ok 7) = .ok (w, r) ∧
        r = some (w.size_ - 1) ∧ w.size_ = (vecEmpty : Vector Int).size_ + 1 ∧
        w.data_.buffer[w.size_ - 1]? = some (some 7)) ∧
     (∃ w r, PushBackCopy genOps (vecEmpty : Vector Int) 7 = .ok (w, r) ∧ r = none ∧
        w.size_ = (vecEmpty : Vector Int).size_ + 1 ∧
        w.data_.buffer[w.size_ - 1]? = some (some 7)) ∧
     (∃ w r, PushBackMove genOps (vecEmpty : Vector Int) 7 = .ok (w, r) ∧ r = none ∧
        w.size_ = (vecEmpty : Vector Int).size_ + 1 ∧
        w.data_.buffer[w.size_ - 1]? = some (some 7))) :=
  ⟨fun _ => rfl, fun _ => rfl, by decide,
    C5_returned_reference (fun _ => rfl) (fun _ => rfl) (vecEmpty : Vector Int)
      (by decide) 7⟩

/-- C7: copying (constructor or assignment) yields a container with the same
element values in the same order - the copy constructor allocating exactly
`other.size_` capacity, so the copy is built by fresh element-wise
construction into its own storage, sharing nothing mutable with the source -
and move construction transfers the full state to the destination while
leaving the source logically empty (size 0, and here also capacity 0). -/
theorem C7_copy_move_roundtrip {et : ElemType α} (hc : ∀ a, et.failCopy a = false)
    (v other : Vector α) (hwfv : WF v) (hwfo : WF other) :
    (∃ w, CopyCtor et other = .ok w ∧ w.size_ = other.size_ ∧
      w.Capacity = other.size_ ∧ w.elems = other.elems) ∧
    (∃ w, CopyAssign et v other = .ok w ∧ w.size_ = other.size_ ∧
      w.elems = other.elems) ∧
    (MoveCtor other).1 = other ∧ (MoveCtor other).2.size_ = 0 ∧
    (MoveCtor other).2.Capacity = 0 := by
  exact ⟨CopyCtor_ok hc hwfo, CopyAssign_ok hc hwfv hwfo, rfl, rfl, rfl⟩

/-- Witness for C7 at concrete inputs: copying `[7, 8]` into a vector
holding `[1]` with capacity 2, and move-constructing from `[7, 8]`. -/
theorem C7_copy_move_roundtrip_witness :
    (∀ a : Int, genOps.failCopy a = false) ∧
    WF (⟨⟨[some 1, none]⟩, 1⟩ : Vector Int) ∧
    WF (⟨⟨[some 7, some 8]⟩, 2⟩ : Vector Int) ∧
    ((∃ w, CopyCtor genOps (⟨⟨[some 7, some 8]⟩, 2⟩ : Vector Int) = .ok w ∧
        w.size_ = (⟨⟨[some 7, some 8]⟩, 2⟩ : Vector Int).size_ ∧
        w.Capacity = (⟨⟨[some 7, some 8]⟩, 2⟩ : Vector Int).size_ ∧
        w.elems = (⟨⟨[some 7, some 8]⟩, 2⟩ : Vector Int).elems) ∧
     (∃ w, CopyAssign genOps (⟨⟨[some 1, none]⟩, 1⟩ : Vector Int)
          (⟨⟨[some 7, some 8]⟩, 2⟩ : Vector Int) = .ok w ∧
        w.size_ = (⟨⟨[some 7, some 8]⟩, 2⟩ : Vector Int).size_ ∧
        w.elems = (⟨⟨[some 7, some 8]⟩, 2⟩ : Vector Int).elems) ∧
     (MoveCtor (⟨⟨[some 7, some 8]⟩, 2⟩ : Vector Int)).1 =
        (⟨⟨[some 7, some 8]⟩, 2⟩ : Vector Int) ∧
     (MoveCtor (⟨⟨[some 7, some 8]⟩, 2⟩ : Vector Int)).2.size_ = 0 ∧
     (MoveCtor (⟨⟨[some 7, some 8]⟩, 2⟩ : Vector Int)).2.Capacity = 0) :=
  ⟨fun _ => rfl, by decide, by decide,
    C7_copy_move_roundtrip (fun _ => rfl) (⟨⟨[some 1, none]⟩, 1⟩ : Vector Int)
      (⟨⟨[some 7, some 8]⟩, 2⟩ : Vector Int) (by decide) (by decide)⟩

end AdvVec
